import Mathlib

/-!
Shallow embedding of the OSN distributed file service
(coordinator `name_server.c`, storage node `storage_server.c`,
parser `sentence_parser.c`, hashmap `hashmap.c`) and proofs about the
claims of the specification.

Strings from the C code are modelled as `List Char` where character-level
processing matters, and as `String` where they act as map keys.  C buffer
bounds that the algorithms test explicitly (`MAX_SENTENCE_LENGTH`,
`MAX_WORDS`, ...) are kept as parameters and instantiated at the values of
`common.h`.
-/

set_option maxRecDepth 40000

namespace Osn

/-! ### Constants from `include/common.h` -/

def BUFFER_SIZE : Nat := 8192
def MAX_FILENAME : Nat := 256
def MAX_USERNAME : Nat := 64
def MAX_SENTENCE_LENGTH : Nat := 1024
def MAX_SENTENCES : Nat := 1000
def MAX_WORD_LENGTH : Nat := 128
def MAX_WORDS : Nat := 500
def MAX_ACL_ENTRIES : Nat := 50
def HASHMAP_SIZE : Nat := 1024

def SUCCESS : Nat := 0
def ERR_FILE_NOT_FOUND : Nat := 1
def ERR_UNAUTHORIZED : Nat := 2
def ERR_FILE_LOCKED : Nat := 3
def ERR_INVALID_INDEX : Nat := 4
def ERR_FILE_EXISTS : Nat := 5
def ERR_STORAGE_SERVER_DOWN : Nat := 8
def ERR_INTERNAL : Nat := 9
def ERR_NO_STORAGE_SERVERS : Nat := 11
def ERR_INVALID_PARAMETERS : Nat := 12

def PERM_READ : Nat := 1
def PERM_WRITE : Nat := 2

/-! ### Character classes

`isspace` of C's default locale accepts space, `\t`, `\n`, `\v`, `\f`, `\r`.
The sentence delimiters are `.`, `!`, `?` (`sentence_parser.c::parse_sentences`).
-/

def csIsSpace (c : Char) : Bool :=
  c = ' ' || c = '\t' || c = '\n' || c = '\x0b' || c = '\x0c' || c = '\r'

def isDelim (c : Char) : Bool :=
  c = '.' || c = '!' || c = '?'

/-! ### `sentence_parser.c` -/

/-- Leading-whitespace trim.  In `parse_sentences`' main loop the buffer ends
with a (non-space) delimiter, so the backwards scan never moves `end`:
only leading whitespace is removed. -/
def trimLeading (l : List Char) : List Char := l.dropWhile csIsSpace

/-- Both-sides trim, used by `parse_sentences` for the trailing
unterminated sentence. -/
def trimBoth (l : List Char) : List Char :=
  ((l.dropWhile csIsSpace).reverse.dropWhile csIsSpace).reverse

/-- The block after `parse_sentences`' main loop: an unterminated trailing
sentence is trimmed on both sides and kept if non-empty, provided the
sentence budget is not exhausted. -/
def psFinish (maxS : Nat) (buf : List Char) (acc : List (List Char)) :
    List (List Char) :=
  if buf = [] then acc
  else if maxS ≤ acc.length then acc
  else if trimBoth buf = [] then acc else acc ++ [trimBoth buf]

/-- Main loop of `parse_sentences`: each character is appended to the
current buffer; a delimiter closes the sentence (leading-trimmed, kept if
non-empty — it always is, since it ends with the delimiter); a buffer that
reaches `maxLen - 1` characters is forcibly cut. -/
def psGo (maxS maxLen : Nat) : List Char → List Char → List (List Char) →
    List (List Char)
  | [], buf, acc => psFinish maxS buf acc
  | c :: rest, buf, acc =>
    if maxS ≤ acc.length then psFinish maxS buf acc
    else
      let buf' := buf ++ [c]
      if isDelim c then
        let t := trimLeading buf'
        -- `t = []` is unreachable: `buf'` ends with the non-space delimiter.
        if t = [] then psGo maxS maxLen rest buf' acc
        else psGo maxS maxLen rest [] (acc ++ [t])
      else if maxLen - 1 ≤ buf'.length then
        psGo maxS maxLen rest [] (acc ++ [buf'])
      else psGo maxS maxLen rest buf' acc

/-- `parse_sentences(text, sentences, max_sentences)` with sentence buffers
of `maxLen` bytes (`MAX_SENTENCE_LENGTH` in the C code). -/
def parse_sentences (maxS maxLen : Nat) (text : List Char) :
    List (List Char) :=
  psGo maxS maxLen text [] []

/-- Main loop of `parse_words`: whitespace-separated runs; characters past
`maxWL - 1` in a run are dropped; at most `maxW` words are produced. -/
def pwGo (maxW maxWL : Nat) : List Char → List Char → Bool →
    List (List Char) → List (List Char)
  | [], cur, inWord, acc =>
    if inWord ∧ acc.length < maxW then acc ++ [cur] else acc
  | c :: rest, cur, inWord, acc =>
    if maxW ≤ acc.length then
      if inWord ∧ acc.length < maxW then acc ++ [cur] else acc
    else if csIsSpace c then
      if inWord then pwGo maxW maxWL rest [] false (acc ++ [cur])
      else pwGo maxW maxWL rest cur false acc
    else
      pwGo maxW maxWL rest
        (if cur.length < maxWL - 1 then cur ++ [c] else cur) true acc

/-- `parse_words(sentence, words, max_words)` with word buffers of
`maxWL` bytes (`MAX_WORD_LENGTH`). -/
def parse_words (maxW maxWL : Nat) (s : List Char) : List (List Char) :=
  pwGo maxW maxWL s [] false []

/-- `strncat(output, src, maxLen - strlen(output) - 1)`:
append `src` truncated to the space left in an `maxLen`-byte buffer. -/
def strncatT (out src : List Char) (maxLen : Nat) : List Char :=
  out ++ src.take (maxLen - out.length - 1)

/-- The word/sentence-joining loop shared by `rebuild_text` and the first
loop of `insert_word`: while the output has room, append a space (when not
the first element and there is room for it) and the element truncated to
the remaining space. -/
def joinLoop (maxLen : Nat) : List (List Char) → Bool → List Char →
    List Char
  | [], _, out => out
  | s :: rest, notFirst, out =>
    if out.length < maxLen - 1 then
      let out1 := if notFirst ∧ out.length < maxLen - 2 then out ++ [' ']
                  else out
      joinLoop maxLen rest true (strncatT out1 s maxLen)
    else out

/-- `rebuild_text(sentences, num, output, max_len)`: join with single
spaces into a `maxLen`-byte buffer. -/
def rebuild_text (l : List (List Char)) (maxLen : Nat) : List Char :=
  joinLoop maxLen l false []

/-- Second loop of `insert_word` (words after the insertion point); its
space condition is `current_len > 0` rather than `i > 0`. -/
def insLoop2 (maxLen : Nat) : List (List Char) → List Char → List Char
  | [], out => out
  | s :: rest, out =>
    if out.length < maxLen - 1 then
      let out1 := if 0 < out.length ∧ out.length < maxLen - 2 then
                    out ++ [' ']
                  else out
      insLoop2 maxLen rest (strncatT out1 s maxLen)
    else out

/-- `insert_word(sentence, word_index, word, output, max_len)`:
parse the sentence into words, require `0 ≤ word_index ≤ word_count`,
splice the new word in and rejoin with single spaces (with the C buffer
truncations). -/
def insert_word (maxLen : Nat) (sentence : List Char) (wordIndex : Int)
    (word : List Char) : Except Nat (List Char) :=
  let words := parse_words MAX_WORDS MAX_WORD_LENGTH sentence
  if wordIndex < 0 ∨ (words.length : Int) < wordIndex then
    .error ERR_INVALID_INDEX
  else
    let k := wordIndex.toNat
    let out0 := joinLoop maxLen (words.take k) false []
    let out1 := if 0 < k ∧ out0.length < maxLen - 2 then out0 ++ [' ']
                else out0
    let out2 := strncatT out1 word maxLen
    .ok (insLoop2 maxLen (words.drop k) out2)

/-- `get_text_stats`: character count, word count (summed over parsed
sentences) and sentence count. -/
def get_text_stats (text : List Char) : Nat × Nat × Nat :=
  let sentences := parse_sentences MAX_SENTENCES MAX_SENTENCE_LENGTH text
  let words := sentences.foldl
    (fun a s => a + (parse_words MAX_WORDS MAX_WORD_LENGTH s).length) 0
  (words, text.length, sentences.length)

/-! ### Association lists

Directories on disk and the hashmaps are keyed collections; writing a file
overwrites the entry of its name or creates it.  Keys are unique in every
state the servers build.
-/

def assocGet {α : Type} : List (String × α) → String → Option α
  | [], _ => none
  | e :: rest, k => if e.1 = k then some e.2 else assocGet rest k

def assocPut {α : Type} : List (String × α) → String → α →
    List (String × α)
  | [], k, v => [(k, v)]
  | e :: rest, k, v =>
    if e.1 = k then (k, v) :: rest else e :: assocPut rest k v

def assocErase {α : Type} : List (String × α) → String →
    List (String × α)
  | [], _ => []
  | e :: rest, k => if e.1 = k then rest else e :: assocErase rest k

/-! ### Storage server (`storage_server.c`) -/

/-- `validate_filename`: non-empty, no `".."`, no `/`, none of
`<>:"|?*\`, shorter than `MAX_FILENAME`. -/
def hasDotDot : List Char → Bool
  | '.' :: '.' :: _ => true
  | _ :: rest => hasDotDot rest
  | [] => false

def isBadFnChar (c : Char) : Bool :=
  c = '<' || c = '>' || c = ':' || c = '"' || c = '|' || c = '?' ||
  c = '*' || c = '\\'

def validate_filename (f : String) : Bool :=
  ¬(f.data = []) && ¬hasDotDot f.data && ¬f.data.any (· = '/') &&
  ¬f.data.any isBadFnChar && f.data.length < MAX_FILENAME

/-- The non-ACL part of a metadata sidecar (`FileInfo` fields that
`load_metadata`/`save_metadata` transport). -/
structure SSMetaInfo where
  owner : String
  created : Int
  modified : Int
  accessed : Int
  last_accessed_by : String
  word_count : Int
  char_count : Int
deriving Repr, DecidableEq

/-- Storage-node disk state: `data/files/`, `data/metadata/` (sidecar =
info plus ACL lines `acl:user:R|W`, each permission persisted as a single
character), `data/undo/`. -/
structure SSState where
  files : List (String × List Char)
  meta : List (String × (SSMetaInfo × List (String × Char)))
  undo : List (String × List Char)
deriving Repr, DecidableEq

/-- `load_metadata` maps an ACL character to a permission:
`'W' ↦ PERM_WRITE`, anything else `↦ PERM_READ`. -/
def parsePermChar (c : Char) : Nat :=
  if c = 'W' then PERM_WRITE else PERM_READ

/-- `save_metadata` writes `'W'` exactly for `PERM_WRITE` and `'R'`
otherwise. -/
def permToChar (p : Nat) : Char :=
  if p = PERM_WRITE then 'W' else 'R'

def load_metadata (st : SSState) (f : String) :
    Option (SSMetaInfo × List (String × Nat)) :=
  (assocGet st.meta f).map fun m =>
    (m.1, m.2.map fun e => (e.1, parsePermChar e.2))

def save_metadata (st : SSState) (f : String) (info : SSMetaInfo)
    (acl : List (String × Nat)) : SSState :=
  { st with
    meta := assocPut st.meta f
      (info, acl.map fun e => (e.1, permToChar e.2)) }

/-- ACL scan of `check_access`: the first entry of the caller decides;
`READ` requirement is satisfied by `permission >= PERM_READ`, `WRITE` by
`permission == PERM_WRITE`. -/
def checkAcl : List (String × Nat) → String → Nat → Bool
  | [], _, _ => false
  | e :: rest, u, req =>
    if e.1 = u then
      if req = PERM_READ then decide (PERM_READ ≤ e.2)
      else if req = PERM_WRITE then decide (e.2 = PERM_WRITE)
      else checkAcl rest u req
    else checkAcl rest u req

/-- `check_access`: a missing metadata sidecar denies; the owner is always
authorized; otherwise the ACL decides. -/
def check_access (st : SSState) (f u : String) (req : Nat) : Bool :=
  match load_metadata st f with
  | none => false
  | some (info, acl) => if info.owner = u then true else checkAcl acl u req

/-- `load_file_content`: fails on an invalid filename, a missing file, or
content of `maxLen - 1` bytes or more. -/
def load_file_content (st : SSState) (f : String) (maxLen : Nat) :
    Option (List Char) :=
  if ¬ validate_filename f then none
  else match assocGet st.files f with
    | none => none
    | some c => if maxLen - 1 ≤ c.length then none else some c

/-- `save_file_content` (with `atomic_write_file`): replaces the content
of `f`; fails (leaving the state unchanged) on an invalid filename. -/
def save_file_content (st : SSState) (f : String) (content : List Char) :
    SSState × Bool :=
  if validate_filename f then
    ({ st with files := assocPut st.files f content }, true)
  else (st, false)

/-- A storage-node response: error code and the `data` bytes the claims
inspect (informational message texts are not modelled). -/
structure SSResp where
  code : Nat
  data : List Char := []
deriving Repr, DecidableEq

/-- The metadata refresh `handle_write_commit` and `handle_undo` perform
after rewriting the content: new modified time, counters recomputed by
`get_text_stats`. -/
def refreshInfo (info : SSMetaInfo) (now : Int) (content : List Char) :
    SSMetaInfo :=
  { info with
    modified := now
    word_count := ((get_text_stats content).1 : Int)
    char_count := ((get_text_stats content).2.1 : Int) }

/-- `handle_read_file`: access check, content load, access-time metadata
refresh. -/
def handle_read_file (st : SSState) (u f : String) (now : Int) :
    SSResp × SSState :=
  if ¬ check_access st f u PERM_READ then ({ code := ERR_UNAUTHORIZED }, st)
  else match load_file_content st f BUFFER_SIZE with
    | none => ({ code := ERR_FILE_NOT_FOUND }, st)
    | some content =>
      let st' := match load_metadata st f with
        | some (i, acl) =>
          save_metadata st f { i with accessed := now, last_accessed_by := u } acl
        | none => st
      ({ code := SUCCESS, data := content }, st')

/-- The content `handle_write_commit` starts from: the stored file, or
`""` when the load fails. -/
def wcContent (st : SSState) (f : String) : List Char :=
  (load_file_content st f BUFFER_SIZE).getD []

/-- The target sentence: `sentences[sentence_index]` (copied through a
`MAX_SENTENCE_LENGTH - 1` `strncpy`) or a fresh empty sentence in the
append case `sentence_index = sentence_count`. -/
def wcTarget (sentences : List (List Char)) (sidx : Int) : List Char :=
  (sentences.getD sidx.toNat []).take (MAX_SENTENCE_LENGTH - 1)

/-- The edit loop of `handle_write_commit`: apply each `(word_index, word)`
insertion in order; the first invalid index aborts the whole commit.  An
empty word cannot be produced by `sscanf("%d|%[^|]|")`, so it breaks the
loop, keeping the edits already applied — as the C loop does. -/
def applyEdits : List Char → List (Int × List Char) →
    Except Nat (List Char)
  | s, [] => .ok s
  | s, (wi, w) :: rest =>
    if w = [] then .ok s
    else match insert_word MAX_SENTENCE_LENGTH s wi w with
      | .error e => .error e
      | .ok s' => applyEdits s' rest

/-- `handle_write_commit` for a payload already split into
`sentence_index` and the edit list (the wire format is
`sentence_index|word_index|word|…|`, built by the client).  The undo
snapshot is written before any validation. -/
def handle_write_commit (st : SSState) (u f : String) (sidx : Int)
    (edits : List (Int × List Char)) (now : Int) : SSResp × SSState :=
  if ¬ check_access st f u PERM_WRITE then ({ code := ERR_UNAUTHORIZED }, st)
  else
    let content := wcContent st f
    let st1 := { st with undo := assocPut st.undo f content }
    let sentences := parse_sentences MAX_SENTENCES MAX_SENTENCE_LENGTH content
    if sidx < 0 ∨ (sentences.length : Int) < sidx then
      ({ code := ERR_INVALID_INDEX }, st1)
    else
      match applyEdits (wcTarget sentences sidx) edits with
      | .error _ => ({ code := ERR_INVALID_INDEX }, st1)
      | .ok edited =>
        let newSents := parse_sentences MAX_SENTENCES MAX_SENTENCE_LENGTH edited
        let result := sentences.take sidx.toNat ++ newSents ++
          sentences.drop (sidx.toNat + 1)
        let newContent := rebuild_text result BUFFER_SIZE
        let st2 := (save_file_content st1 f newContent).1
        let st3 := match load_metadata st2 f with
          | some (i, acl) =>
            save_metadata st2 f (refreshInfo i now newContent) acl
          | none => st2
        ({ code := SUCCESS }, st3)

/-- `handle_undo`: swap the stored content with the undo slot (the C code
reads at most `BUFFER_SIZE - 1` undo bytes and ignores a failing load of
the current content, which we model as empty content). -/
def handle_undo (st : SSState) (u f : String) (now : Int) :
    SSResp × SSState :=
  if ¬ check_access st f u PERM_WRITE then ({ code := ERR_UNAUTHORIZED }, st)
  else match assocGet st.undo f with
    | none => ({ code := ERR_INVALID_PARAMETERS }, st)
    | some undoFile =>
      let undoContent := undoFile.take (BUFFER_SIZE - 1)
      let current := (load_file_content st f BUFFER_SIZE).getD []
      let st1 := { st with undo := assocPut st.undo f current }
      let st2 := (save_file_content st1 f undoContent).1
      let st3 := match load_metadata st2 f with
        | some (i, acl) =>
          save_metadata st2 f (refreshInfo i now undoContent) acl
        | none => st2
      ({ code := SUCCESS }, st3)

/-- `handle_info` (response text not modelled): access check, then the
metadata must exist. -/
def handle_info (st : SSState) (u f : String) : SSResp × SSState :=
  if ¬ check_access st f u PERM_READ then ({ code := ERR_UNAUTHORIZED }, st)
  else match load_metadata st f with
    | none => ({ code := ERR_FILE_NOT_FOUND }, st)
    | some _ => ({ code := SUCCESS }, st)

/-- `handle_stream`: access check, content load, first 100 words packed
as `|WORD|w`. -/
def handle_stream (st : SSState) (u f : String) : SSResp × SSState :=
  if ¬ check_access st f u PERM_READ then ({ code := ERR_UNAUTHORIZED }, st)
  else match load_file_content st f BUFFER_SIZE with
    | none => ({ code := ERR_FILE_NOT_FOUND }, st)
    | some content =>
      let words := parse_words MAX_WORDS MAX_WORD_LENGTH content
      ({ code := SUCCESS,
         data := (words.take 100).foldl
           (fun a w => a ++ ("|WORD|".data ++ w)) [] }, st)

/-- `sscanf(data, "%s", buf)`: skip leading whitespace, take the
non-whitespace run. -/
def scanString (s : String) : String :=
  ((s.data.dropWhile csIsSpace).takeWhile (fun c => ¬ csIsSpace c)).asString

/-- `handle_add_access`: owner-only; the target username is the `%s`-scan
of the whole payload; duplicate targets and a full ACL are rejected; the
new entry carries `PERM_READ | PERM_WRITE` and is persisted through
`save_metadata`. -/
def handle_add_access (st : SSState) (caller f : String)
    (payload : String) : SSResp × SSState :=
  match load_metadata st f with
  | none => ({ code := ERR_FILE_NOT_FOUND }, st)
  | some (info, acl) =>
    if info.owner ≠ caller then ({ code := ERR_UNAUTHORIZED }, st)
    else
      let target := scanString payload
      if acl.any (fun e => e.1 = target) then
        ({ code := ERR_INVALID_PARAMETERS }, st)
      else if MAX_ACL_ENTRIES ≤ acl.length then
        ({ code := ERR_INVALID_PARAMETERS }, st)
      else
        ({ code := SUCCESS },
         save_metadata st f info (acl ++ [(target, PERM_READ ||| PERM_WRITE)]))

/-! ### The hashmap of `hashmap.c`

Registries are modelled as association lists in insertion order (updates
keep an entry in place, as `hashmap_put` does).  `hashmap_get_keys` walks
the buckets in index order; within a bucket, nodes sit in reverse
insertion order because `hashmap_put` prepends. -/

/-- djb2 (`hash * 33 + c` in 32-bit unsigned arithmetic) reduced modulo
`HASHMAP_SIZE`; ASCII keys, so signedness of `char` does not matter. -/
def djb2bucket (s : String) : Nat :=
  (s.data.foldl (fun h c => (h * 33 + c.toNat) % 4294967296) 5381) %
    HASHMAP_SIZE

/-- `hashmap_get_keys`: keys in bucket order, newest-first within each
bucket. -/
def hmKeys {α : Type} (m : List (String × α)) : List String :=
  (List.range HASHMAP_SIZE).flatMap
    (fun b => ((m.map Prod.fst).filter (fun k => djb2bucket k = b)).reverse)

/-! ### Coordinator registry records (`name_server.c`, `common.h`) -/

structure NMFileInfo where
  filename : String
  owner : String
  ss_id : String
  created : Int
  modified : Int
  accessed : Int
  last_accessed_by : String
  word_count : Int
  char_count : Int
deriving Repr, DecidableEq

structure SSNodeInfo where
  ss_id : String
  ip : String
  nm_port : Int
  client_port : Int
  connected : Bool
  last_heartbeat : Int
  file_count : Int
  replica_ss_id : String
deriving Repr, DecidableEq

structure SentenceLockRec where
  filename : String
  sentence_index : Int
  locked_by : String
  lock_time : Int
deriving Repr, DecidableEq

structure AccessRequestRec where
  filename : String
  requester : String
  owner : String
  request_time : Int
  pending : Bool
deriving Repr, DecidableEq

/-- Coordinator state.  `registry_disk` is `data/file_registry.txt` as a
list of lines (the granularity of `fprintf`/`fgets`); the LRU cache is
modelled as a lookup table — the claims never exercise eviction. -/
structure NMState where
  file_registry : List (String × NMFileInfo)
  ss_registry : List (String × SSNodeInfo)
  sentence_locks : List (String × SentenceLockRec)
  file_cache : List (String × NMFileInfo)
  access_requests : List (String × AccessRequestRec)
  registry_disk : List (List Char)
deriving Repr, DecidableEq

structure NMResp where
  code : Nat
  data : String := ""
deriving Repr, DecidableEq

/-! ### Registry persistence (`save_file_registry` / `load_file_registry`)

One `|`-separated line per record; numbers are printed with `%ld`/`%d` and
read back with `sscanf`, string fields with `%[^|]`. -/

def decDigit (d : Nat) : Char := Char.ofNat (48 + d)

def natToDigits (n : Nat) : List Char :=
  if _h : n < 10 then [decDigit n]
  else natToDigits (n / 10) ++ [decDigit (n % 10)]
decreasing_by exact Nat.div_lt_self (by omega) (by omega)

/-- `%ld`-style printing of an integer. -/
def intToChars (i : Int) : List Char :=
  if i < 0 then '-' :: natToDigits i.natAbs else natToDigits i.toNat

/-- Greedy digit scan of a numeric `sscanf` conversion. -/
def parseNatAux (acc : Nat) : List Char → Nat × List Char
  | [] => (acc, [])
  | c :: rest =>
    if c.isDigit then parseNatAux (acc * 10 + (c.toNat - 48)) rest
    else (acc, c :: rest)

def parseNatFrom : List Char → Option (Nat × List Char)
  | [] => none
  | c :: rest =>
    if c.isDigit then some (parseNatAux (c.toNat - 48) rest) else none

/-- The sign-and-digits part of a numeric conversion (after whitespace). -/
def parseIntCore : List Char → Option (Int × List Char)
  | [] => none
  | c :: rest =>
    if c = '-' then (parseNatFrom rest).map (fun p => (-(p.1 : Int), p.2))
    else if c = '+' then (parseNatFrom rest).map (fun p => ((p.1 : Int), p.2))
    else (parseNatFrom (c :: rest)).map (fun p => ((p.1 : Int), p.2))

/-- `%ld`/`%d`: skip whitespace, optional sign, at least one digit. -/
def parseIntFrom (l : List Char) : Option (Int × List Char) :=
  parseIntCore (l.dropWhile csIsSpace)

/-- `%[^|]`: a non-empty run of characters other than `|`. -/
def scanSetNonBar (l : List Char) : Option (List Char × List Char) :=
  let t := l.takeWhile (fun c => c ≠ '|')
  if t = [] then none else some (t, l.drop t.length)

/-- A literal `|` in a `sscanf` format. -/
def expectBar : List Char → Option (List Char)
  | '|' :: r => some r
  | _ => none

/-- The `fprintf` format of `save_file_registry`
(`"%s|%s|%s|%ld|%ld|%ld|%s|%d|%d\n"`, one line per record). -/
def serializeRegLine (r : NMFileInfo) : List Char :=
  r.filename.data ++ ('|' :: (r.owner.data ++ ('|' :: (r.ss_id.data ++
  ('|' :: (intToChars r.created ++ ('|' :: (intToChars r.modified ++
  ('|' :: (intToChars r.accessed ++ ('|' :: (r.last_accessed_by.data ++
  ('|' :: (intToChars r.word_count ++
  ('|' :: intToChars r.char_count)))))))))))))))

/-- A `%[^|]` conversion followed by a literal `|` in the format. -/
def parseStrBar (l : List Char) : Option (List Char × List Char) :=
  (scanSetNonBar l).bind fun p => (expectBar p.2).map fun r => (p.1, r)

/-- A `%ld`/`%d` conversion followed by a literal `|` in the format. -/
def parseIntBar (l : List Char) : Option (Int × List Char) :=
  (parseIntFrom l).bind fun p => (expectBar p.2).map fun r => (p.1, r)

/-- The `sscanf` format of `load_file_registry`
(`"%[^|]|%[^|]|%[^|]|%ld|%ld|%ld|%[^|]|%d|%d"`). -/
def parseRegLine (l : List Char) : Option NMFileInfo :=
  (parseStrBar l).bind fun p1 =>
  (parseStrBar p1.2).bind fun p2 =>
  (parseStrBar p2.2).bind fun p3 =>
  (parseIntBar p3.2).bind fun p4 =>
  (parseIntBar p4.2).bind fun p5 =>
  (parseIntBar p5.2).bind fun p6 =>
  (parseStrBar p6.2).bind fun p7 =>
  (parseIntBar p7.2).bind fun p8 =>
  (parseIntFrom p8.2).map fun p9 =>
  { filename := p1.1.asString, owner := p2.1.asString,
    ss_id := p3.1.asString, created := p4.1, modified := p5.1,
    accessed := p6.1, last_accessed_by := p7.1.asString,
    word_count := p8.1, char_count := p9.1 }

/-- `save_file_registry`: one line per key, in `hashmap_get_keys` order. -/
def save_file_registry (reg : List (String × NMFileInfo)) :
    List (List Char) :=
  (hmKeys reg).filterMap (fun k => (assocGet reg k).map serializeRegLine)

/-- `load_file_registry`: replay the lines in order, keying each record by
its parsed filename.  (The C code does not check the `sscanf` return value
and would insert an uninitialized record for a malformed line; the claims
only concern well-formed registries, where every line parses.) -/
def load_file_registry (lines : List (List Char)) :
    List (String × NMFileInfo) :=
  lines.foldl (fun reg line =>
    match parseRegLine line with
    | some info => assocPut reg info.filename info
    | none => reg) []

/-- A persisted string field survives the `%s`-then-`%[^|]` round trip iff
it is non-empty and free of the `|` separator and of newlines (a newline
would split the `fgets` line; all well-formed lines are far below the
1024-byte `fgets` buffer, since the C fields are bounded). -/
abbrev wfField (s : String) : Prop :=
  s.data ≠ [] ∧ ∀ c ∈ s.data, ¬ c = '|' ∧ ¬ c = '\n'

/-- A registry record whose string fields survive the round trip. -/
abbrev wfRec (r : NMFileInfo) : Prop :=
  wfField r.filename ∧ wfField r.owner ∧ wfField r.ss_id ∧
    wfField r.last_accessed_by

/-! ### Coordinator handlers -/

/-- The sentence-lease key `"filename:sentence_index"`. -/
def lockKey (f : String) (idx : Int) : String :=
  f ++ ":" ++ toString idx

/-- `handle_lock_acquire`.  Note that the new lease is installed *before*
the storage-node lookup, so a `STORAGE_DOWN` answer still leaves the
lease in place — exactly as in the C code. -/
def handle_lock_acquire (st : NMState) (user f : String) (idx now : Int) :
    NMResp × NMState :=
  match assocGet st.file_registry f with
  | none => ({ code := ERR_FILE_NOT_FOUND, data := "File not found" }, st)
  | some info =>
    match assocGet st.sentence_locks (lockKey f idx) with
    | some l =>
      if l.locked_by = user then
        ({ code := SUCCESS, data := "Lock already held by you" }, st)
      else
        ({ code := ERR_FILE_LOCKED,
           data := "Sentence locked by " ++ l.locked_by }, st)
    | none =>
      let st' := { st with
        sentence_locks := assocPut st.sentence_locks (lockKey f idx)
          { filename := f, sentence_index := idx, locked_by := user,
            lock_time := now } }
      match assocGet st.ss_registry info.ss_id with
      | none =>
        ({ code := ERR_STORAGE_SERVER_DOWN,
           data := "Storage server unavailable" }, st')
      | some ss =>
        ({ code := SUCCESS,
           data := ss.ip ++ "|" ++ toString ss.client_port }, st')

/-- `handle_lock_release`: only the holder may release; the lease is
removed. -/
def handle_lock_release (st : NMState) (user f : String) (idx : Int) :
    NMResp × NMState :=
  match assocGet st.sentence_locks (lockKey f idx) with
  | none => ({ code := ERR_INVALID_PARAMETERS, data := "No lock exists" }, st)
  | some l =>
    if l.locked_by ≠ user then
      ({ code := ERR_UNAUTHORIZED, data := "Lock owned by " ++ l.locked_by },
       st)
    else
      ({ code := SUCCESS, data := "Lock released" },
       { st with
         sentence_locks := assocErase st.sentence_locks (lockKey f idx) })

/-- `handle_create` declares `char ss_keys[100][64]` but passes it to
`hashmap_get_keys` cast to 256-byte rows: the keys are written with a
256-byte stride (zero-padded by `strncpy`) and read back with a 64-byte
stride.  Row `i` of the read view therefore holds the real key `i / 4`
when `i % 4 = 0` and an empty string (padding bytes) otherwise. -/
def createKeysRead (keys : List String) : List String :=
  (List.range keys.length).map
    (fun i => if i % 4 = 0 then keys.getD (i / 4) "" else "")

/-- The minimum-file-count scan of `handle_create`: first connected node
with a strictly smaller declared `file_count` wins; `min_files` starts at
`INT_MAX`. -/
def createScan (reg : List (String × SSNodeInfo)) :
    List String → Int → Option SSNodeInfo → Option SSNodeInfo
  | [], _, sel => sel
  | k :: rest, minF, sel =>
    match assocGet reg k with
    | some ss =>
      if ss.connected ∧ ss.file_count < minF then
        createScan reg rest ss.file_count (some ss)
      else createScan reg rest minF sel
    | none => createScan reg rest minF sel

/-- The node selection of `handle_create`: the scan over the stride-read
key view, falling back to `ss_keys[0]` — whatever its `connected` flag —
when the scan found no connected node. -/
def createSelect (st : NMState) : Option SSNodeInfo :=
  match createScan st.ss_registry (createKeysRead (hmKeys st.ss_registry))
      2147483647 none with
  | some ss => some ss
  | none => assocGet st.ss_registry
      ((createKeysRead (hmKeys st.ss_registry)).getD 0 "")

/-- `handle_create`: duplicate filenames are rejected; with no registered
node the answer is `NO_STORAGE_SERVERS`; otherwise the scan picks the
minimum-load connected node and, when none is connected, the code falls
back to `ss_keys[0]` regardless of its `connected` flag.  The chosen
node's `file_count` is incremented, the record registered and the
registry persisted. -/
def handle_create (st : NMState) (user f : String) (now : Int) :
    NMResp × NMState :=
  if (assocGet st.file_registry f).isSome then
    ({ code := ERR_FILE_EXISTS }, st)
  else
    if (hmKeys st.ss_registry).length = 0 then
      ({ code := ERR_NO_STORAGE_SERVERS }, st)
    else
      match createSelect st with
      | none => ({ code := ERR_INTERNAL }, st)
        -- the C code would dereference NULL here; unreachable, since
        -- `ss_keys[0]` is a key of the non-empty registry
      | some ss =>
        let info : NMFileInfo :=
          { filename := f, owner := user, ss_id := ss.ss_id, created := now,
            modified := now, accessed := now, last_accessed_by := user,
            word_count := 0, char_count := 0 }
        let freg := assocPut st.file_registry f info
        let st' := { st with
          ss_registry := assocPut st.ss_registry ss.ss_id
            { ss with file_count := ss.file_count + 1 },
          file_registry := freg,
          registry_disk := save_file_registry freg }
        ({ code := SUCCESS, data := ss.ip ++ "|" ++ toString ss.client_port },
         st')

/-- `sscanf(data, "%[^|]|%s", filename, requester)` of
`handle_approve_request` / `handle_deny_request`. -/
def parseApproveData (s : String) : Option (String × String) :=
  match scanSetNonBar s.data with
  | none => none
  | some (fn, rest) =>
    match expectBar rest with
    | none => none
    | some r2 =>
      let req := (r2.dropWhile csIsSpace).takeWhile (fun c => ¬ csIsSpace c)
      if req = [] then none else some (fn.asString, req.asString)

/-- `handle_approve_request`, composed with the storage node it contacts.
The coordinator sends `CMD_ADDACCESS` with payload `"-R|requester"` to the
node hosting the file and, as soon as *any* reply arrives, marks the
request granted and reports success — the node's own error code is never
examined. -/
def handle_approve_request (nm : NMState) (ss : SSState) (caller : String)
    (data : String) : NMResp × NMState × SSState :=
  match parseApproveData data with
  | none => ({ code := ERR_INVALID_PARAMETERS }, nm, ss)
  | some (fn, requester) =>
    let rkey := fn ++ ":" ++ requester
    match assocGet nm.access_requests rkey with
    | none => ({ code := ERR_FILE_NOT_FOUND }, nm, ss)
    | some req =>
      if ¬ req.pending then ({ code := ERR_FILE_NOT_FOUND }, nm, ss)
      else
        match assocGet nm.file_registry fn with
        | none => ({ code := ERR_UNAUTHORIZED }, nm, ss)
        | some file =>
          if file.owner ≠ caller then ({ code := ERR_UNAUTHORIZED }, nm, ss)
          else
            let cached := (assocGet nm.file_cache fn).getD file
            match assocGet nm.ss_registry cached.ss_id with
            | none => ({ code := ERR_STORAGE_SERVER_DOWN }, nm, ss)
            | some ssInfo =>
              if ¬ ssInfo.connected then
                ({ code := ERR_STORAGE_SERVER_DOWN }, nm, ss)
              else
                let step := handle_add_access ss caller fn ("-R|" ++ requester)
                ({ code := SUCCESS, data := "Access granted to " ++ requester },
                 { nm with access_requests :=
                     (assocPut nm.access_requests rkey
                       { req with pending := false }) },
                 step.2)

/-! ### Concrete states used by witnesses and counterexamples -/

def wNode1 : SSNodeInfo :=
  { ss_id := "SS1", ip := "127.0.0.1", nm_port := 6000, client_port := 7000,
    connected := true, last_heartbeat := 0, file_count := 0,
    replica_ss_id := "" }

def wFileRec : NMFileInfo :=
  { filename := "n.txt", owner := "alice", ss_id := "SS1", created := 5,
    modified := 5, accessed := 5, last_accessed_by := "alice",
    word_count := 0, char_count := 0 }

def wNM : NMState :=
  { file_registry := [("n.txt", wFileRec)], ss_registry := [("SS1", wNode1)],
    sentence_locks := [], file_cache := [], access_requests := [],
    registry_disk := [] }

def wMeta : SSMetaInfo :=
  { owner := "alice", created := 0, modified := 0, accessed := 0,
    last_accessed_by := "alice", word_count := 2, char_count := 8 }

/-- A storage node holding `n.txt` (content `"Hi there"`, owner `alice`,
empty ACL). -/
def wSS : SSState :=
  { files := [("n.txt", "Hi there".data)], meta := [("n.txt", (wMeta, []))],
    undo := [] }

/-- Same node after a write: content `"A B"`, undo slot `"A"`. -/
def wSSU : SSState :=
  { files := [("n.txt", "A B".data)], meta := [("n.txt", (wMeta, []))],
    undo := [("n.txt", "A".data)] }

/-- Two storage nodes whose ids `az` and `bY` collide in the hashmap
(equal djb2 buckets), registered in the order `az` then `bY`, both
connected with equal `file_count`. -/
def wNodeAz : SSNodeInfo :=
  { ss_id := "az", ip := "127.0.0.1", nm_port := 6000, client_port := 7000,
    connected := true, last_heartbeat := 0, file_count := 0,
    replica_ss_id := "" }

def wNodeBy : SSNodeInfo :=
  { wNodeAz with ss_id := "bY", client_port := 7001 }

def wNMtwo : NMState :=
  { file_registry := [], ss_registry := [("az", wNodeAz), ("bY", wNodeBy)],
    sentence_locks := [], file_cache := [], access_requests := [],
    registry_disk := [] }

/-- A single registered storage node that is *not* connected. -/
def wNMdown : NMState :=
  { file_registry := [],
    ss_registry := [("az", { wNodeAz with connected := false })],
    sentence_locks := [], file_cache := [], access_requests := [],
    registry_disk := [] }

/-- A pending access request of `bob` for `alice`'s file `n.txt`. -/
def wReq : AccessRequestRec :=
  { filename := "n.txt", requester := "bob", owner := "alice",
    request_time := 1, pending := true }

/-- Coordinator state holding the pending request `wReq`. -/
def wNMreq : NMState :=
  { wNM with access_requests := [("n.txt:bob", wReq)] }

/-- Storage node whose `n.txt` metadata carries ACL entries for `bob`
(read) and `carol` (write). -/
def wSSacl : SSState :=
  { files := [("n.txt", "Hi there".data)],
    meta := [("n.txt", (wMeta, [("bob", 'R'), ("carol", 'W')]))],
    undo := [] }

/-! ### Spec-side definitions for the WRITE-COMMIT claim

These follow the specification's words ("all joined by single spaces",
"the sentences before the target index, followed by the sentences
obtained by re-parsing the edited sentence, followed by the sentences
after the target index"), to be compared with what the embedded code
computes. -/

/-- The tail of a single-space join: every element preceded by one
space. -/
def joinTrue (l : List (List Char)) : List Char :=
  l.foldr (fun s acc => ' ' :: (s ++ acc)) []

/-- "Sentences joined by single spaces". -/
def joinWithSpace : List (List Char) → List Char
  | [] => []
  | s :: rest => s ++ joinTrue rest

/-- The content the specification predicts for a WRITE-COMMIT of the
edited sentence at index `idx`: sentences before `idx`, the re-parse of
the edited sentence, sentences after `idx`, joined by single spaces. -/
def spliceSpec (content edited : List Char) (idx : Nat) : List Char :=
  let ss := parse_sentences MAX_SENTENCES MAX_SENTENCE_LENGTH content
  joinWithSpace (ss.take idx ++
    parse_sentences MAX_SENTENCES MAX_SENTENCE_LENGTH edited ++
    ss.drop (idx + 1))

/-! ## Lemmas about the association-list operations -/

theorem assocGet_put_self {α : Type} (m : List (String × α)) (k : String)
    (v : α) : assocGet (assocPut m k v) k = some v := by
  induction m with
  | nil => simp [assocPut, assocGet]
  | cons e rest ih =>
    by_cases h : e.1 = k <;> simp [assocPut, assocGet, h, ih]

theorem assocGet_put_ne {α : Type} (m : List (String × α)) (k k' : String)
    (v : α) (h : k ≠ k') :
    assocGet (assocPut m k v) k' = assocGet m k' := by
  induction m with
  | nil => simp [assocPut, assocGet, h]
  | cons e rest ih =>
    by_cases he : e.1 = k
    · simp [assocPut, assocGet, he, h]
    · by_cases he' : e.1 = k' <;>
        simp [assocPut, assocGet, he, he', Ne.symm h, ih]

/-! ## C1: sentence-lease uniqueness and re-entrancy -/

/-- On a state whose lease table already holds `(f, idx)`, an acquire is
decided purely by comparing holders. -/
theorem acquire_on_locked (st : NMState) (user f : String) (idx now : Int)
    (info : NMFileInfo) (l : SentenceLockRec)
    (hreg : assocGet st.file_registry f = some info)
    (hlock : assocGet st.sentence_locks (lockKey f idx) = some l) :
    handle_lock_acquire st user f idx now =
      (if l.locked_by = user then
        ({ code := SUCCESS, data := "Lock already held by you" }, st)
      else
        ({ code := ERR_FILE_LOCKED,
           data := "Sentence locked by " ++ l.locked_by }, st)) := by
  simp [handle_lock_acquire, hreg, hlock]

/-- C1.  After a successful `LOCK-ACQUIRE` by `A` on `(f, idx)`, a
`LOCK-ACQUIRE` on the same key by any `B ≠ A` answers `FILE_LOCKED` with
the holder `A` named in the response and leaves the state unchanged,
while a repeated acquire by `A` answers `SUCCESS`. -/
theorem c1_lease_uniqueness (st : NMState) (A B f : String)
    (idx now now2 now3 : Int)
    (hA : (handle_lock_acquire st A f idx now).1.code = SUCCESS) :
    (B ≠ A →
      (handle_lock_acquire (handle_lock_acquire st A f idx now).2 B f idx
          now2).1 =
        { code := ERR_FILE_LOCKED, data := "Sentence locked by " ++ A } ∧
      (handle_lock_acquire (handle_lock_acquire st A f idx now).2 B f idx
          now2).2 =
        (handle_lock_acquire st A f idx now).2) ∧
    (handle_lock_acquire (handle_lock_acquire st A f idx now).2 A f idx
        now3).1.code = SUCCESS := by
  cases hreg : assocGet st.file_registry f with
  | none =>
    simp [handle_lock_acquire, hreg, SUCCESS, ERR_FILE_NOT_FOUND] at hA
  | some info =>
    cases hlock : assocGet st.sentence_locks (lockKey f idx) with
    | some l =>
      by_cases hby : l.locked_by = A
      · have hst2 : (handle_lock_acquire st A f idx now).2 = st := by
          rw [acquire_on_locked st A f idx now info l hreg hlock, if_pos hby]
        rw [hst2]
        refine ⟨fun hBA => ?_, ?_⟩
        · rw [acquire_on_locked st B f idx now2 info l hreg hlock,
            if_neg (fun h => hBA ((hby.symm.trans h).symm))]
          exact ⟨by rw [hby], rfl⟩
        · rw [acquire_on_locked st A f idx now3 info l hreg hlock,
            if_pos hby]
      · exfalso
        rw [acquire_on_locked st A f idx now info l hreg hlock,
          if_neg hby] at hA
        simp [SUCCESS, ERR_FILE_LOCKED] at hA
    | none =>
      cases hss : assocGet st.ss_registry info.ss_id with
      | none =>
        have : (handle_lock_acquire st A f idx now).1.code =
            ERR_STORAGE_SERVER_DOWN := by
          simp [handle_lock_acquire, hreg, hlock, hss]
        rw [this] at hA
        simp [SUCCESS, ERR_STORAGE_SERVER_DOWN] at hA
      | some ss =>
        have hst2 : (handle_lock_acquire st A f idx now).2 =
            { st with sentence_locks :=
                (assocPut st.sentence_locks (lockKey f idx)
                  { filename := f, sentence_index := idx, locked_by := A,
                    lock_time := now }) } := by
          simp [handle_lock_acquire, hreg, hlock, hss]
        have hreg2 :
            assocGet (handle_lock_acquire st A f idx now).2.file_registry f =
            some info := by rw [hst2]; exact hreg
        have hlock2 :
            assocGet (handle_lock_acquire st A f idx now).2.sentence_locks
              (lockKey f idx) =
            some { filename := f, sentence_index := idx, locked_by := A,
                   lock_time := now } := by
          rw [hst2]; exact assocGet_put_self _ _ _
        refine ⟨fun hBA => ?_, ?_⟩
        · rw [acquire_on_locked _ B f idx now2 info _ hreg2 hlock2,
            if_neg (fun h => hBA h.symm)]
          exact ⟨rfl, rfl⟩
        · rw [acquire_on_locked _ A f idx now3 info _ hreg2 hlock2,
            if_pos rfl]

/-! ## ACL lemmas shared by C7, C9, C10 -/

/-- A caller that appears nowhere in the ACL is denied. -/
theorem checkAcl_map_none (aclC : List (String × Char)) (u : String)
    (h : ∀ e ∈ aclC, e.1 ≠ u) (req : Nat) :
    checkAcl (aclC.map fun e => (e.1, parsePermChar e.2)) u req = false := by
  induction aclC with
  | nil => simp [checkAcl]
  | cons e rest ih =>
    have he : e.1 ≠ u := h e (by simp)
    simpa [checkAcl, he] using ih (fun x hx => h x (by simp [hx]))

/-- The first ACL entry of the caller decides: any permission character
satisfies a `READ` requirement (loaded permissions are `1` or `2`), and a
`WRITE` requirement is satisfied exactly by a `'W'` entry. -/
theorem checkAcl_map_found (aclC : List (String × Char)) (u : String)
    (e : String × Char)
    (h : aclC.find? (fun x => x.1 == u) = some e) :
    checkAcl (aclC.map fun x => (x.1, parsePermChar x.2)) u PERM_READ =
      true ∧
    checkAcl (aclC.map fun x => (x.1, parsePermChar x.2)) u PERM_WRITE =
      decide (e.2 = 'W') := by
  induction aclC with
  | nil => simp [List.find?] at h
  | cons a rest ih =>
    by_cases ha : a.1 = u
    · rw [List.find?_cons_of_pos _ (by simp [ha])] at h
      have he : a = e := Option.some.inj h
      rw [← he]
      by_cases hw : a.2 = 'W' <;>
        simp [checkAcl, ha, hw, parsePermChar, PERM_READ, PERM_WRITE]
    · rw [List.find?_cons_of_neg _ (by simp [ha])] at h
      simpa [checkAcl, ha] using ih h

/-- In an ACL extended by one entry, the caller's first entry is the new
one when the caller appears nowhere in the old part. -/
theorem find?_name_append_not_in {β : Type} (l : List (String × β))
    (u : String) (x : String × β) (h : ∀ e ∈ l, e.1 ≠ u) :
    (l ++ [x]).find? (fun e => e.1 == u) =
      (if x.1 = u then some x else none) := by
  induction l with
  | nil =>
    by_cases hx : x.1 = u
    · rw [List.nil_append, List.find?_cons_of_pos _ (by simp [hx]), if_pos hx]
    · rw [List.nil_append, List.find?_cons_of_neg _ (by simp [hx]), if_neg hx]
      rfl
  | cons a rest ih =>
    have ha : a.1 ≠ u := h a (by simp)
    rw [List.cons_append, List.find?_cons_of_neg _ (by simp [ha])]
    exact ih (fun e he => h e (by simp [he]))

/-! ## C7: the storage-node access check -/

/-- C7.  `check_access` authorizes the owner unconditionally; for a
non-owner the first ACL entry of the caller decides: a missing entry
denies, an existing entry satisfies a `READ` requirement, and it
satisfies a `WRITE` requirement exactly when it carries the `'W'`
(write) permission. -/
theorem c7_access_check (st : SSState) (f u : String) (info : SSMetaInfo)
    (aclC : List (String × Char))
    (hm : assocGet st.meta f = some (info, aclC)) :
    (info.owner = u → ∀ req, check_access st f u req = true) ∧
    (info.owner ≠ u → (∀ e ∈ aclC, e.1 ≠ u) →
      check_access st f u PERM_READ = false ∧
      check_access st f u PERM_WRITE = false) ∧
    (info.owner ≠ u → ∀ e, aclC.find? (fun x => x.1 == u) = some e →
      check_access st f u PERM_READ = true ∧
      check_access st f u PERM_WRITE = decide (e.2 = 'W')) := by
  refine ⟨fun ho req => ?_, fun ho hno => ?_, fun ho e he => ?_⟩
  · simp [check_access, load_metadata, hm, ho]
  · constructor <;>
      simp [check_access, load_metadata, hm, ho, checkAcl_map_none aclC u hno]
  · have := checkAcl_map_found aclC u e he
    constructor <;> simp [check_access, load_metadata, hm, ho, this.1, this.2]

/-- C7 witness: on `wSSacl`, the owner `alice` may write, `bob` (an `'R'`
entry) may read but not write, `carol` (a `'W'` entry) may write, and
`dave` (no entry) may not read. -/
theorem c7_access_check_witness :
    check_access wSSacl "n.txt" "alice" PERM_WRITE = true ∧
    (check_access wSSacl "n.txt" "bob" PERM_READ = true ∧
      check_access wSSacl "n.txt" "bob" PERM_WRITE =
        decide ((("bob", 'R') : String × Char).2 = 'W')) ∧
    check_access wSSacl "n.txt" "carol" PERM_WRITE =
      decide ((("carol", 'W') : String × Char).2 = 'W') ∧
    check_access wSSacl "n.txt" "dave" PERM_READ = false :=
  ⟨(c7_access_check wSSacl "n.txt" "alice" wMeta [("bob", 'R'), ("carol", 'W')]
      (by decide)).1 (by decide) PERM_WRITE,
   ((c7_access_check wSSacl "n.txt" "bob" wMeta [("bob", 'R'), ("carol", 'W')]
      (by decide)).2.2 (by decide) ("bob", 'R') (by decide)),
   ((c7_access_check wSSacl "n.txt" "carol" wMeta [("bob", 'R'), ("carol", 'W')]
      (by decide)).2.2 (by decide) ("carol", 'W') (by decide)).2,
   ((c7_access_check wSSacl "n.txt" "dave" wMeta [("bob", 'R'), ("carol", 'W')]
      (by decide)).2.1 (by decide) (by decide)).1⟩

/-! ## C10: missing metadata means UNAUTHORIZED, not FILE_NOT_FOUND -/

/-- C10.  When the metadata sidecar of `f` does not exist, `check_access`
denies every requirement, so READ, WRITE-COMMIT, INFO and STREAM all
answer `UNAUTHORIZED` — never `FILE_NOT_FOUND` — whatever the content
state. -/
theorem c10_no_metadata_unauthorized (st : SSState) (u f : String)
    (now sidx : Int) (edits : List (Int × List Char))
    (hm : assocGet st.meta f = none) :
    (∀ req, check_access st f u req = false) ∧
    (handle_read_file st u f now).1.code = ERR_UNAUTHORIZED ∧
    (handle_write_commit st u f sidx edits now).1.code = ERR_UNAUTHORIZED ∧
    (handle_info st u f).1.code = ERR_UNAUTHORIZED ∧
    (handle_stream st u f).1.code = ERR_UNAUTHORIZED ∧
    ERR_UNAUTHORIZED ≠ ERR_FILE_NOT_FOUND := by
  have hca : ∀ req, check_access st f u req = false := by
    intro req
    simp [check_access, load_metadata, hm]
  exact ⟨hca,
    by simp [handle_read_file, hca],
    by simp [handle_write_commit, hca],
    by simp [handle_info, hca],
    by simp [handle_stream, hca],
    by decide⟩

/-- C10 witness: `ghost.txt` was never created on `wSS` (no sidecar), and
every file-targeted operation on it answers `UNAUTHORIZED`. -/
theorem c10_no_metadata_unauthorized_witness :
    (handle_read_file wSS "bob" "ghost.txt" 9).1.code = ERR_UNAUTHORIZED ∧
    (handle_write_commit wSS "bob" "ghost.txt" 0 [] 9).1.code =
      ERR_UNAUTHORIZED ∧
    (handle_stream wSS "bob" "ghost.txt").1.code = ERR_UNAUTHORIZED :=
  ⟨(c10_no_metadata_unauthorized wSS "bob" "ghost.txt" 9 0 [] (by decide)).2.1,
   (c10_no_metadata_unauthorized wSS "bob" "ghost.txt" 9 0 [] (by decide)).2.2.1,
   (c10_no_metadata_unauthorized wSS "bob" "ghost.txt" 9 0 [] (by decide)).2.2.2.2.1⟩

/-! ## C9: ADD-ACCESS grants effectively read-only permission -/

/-- C9.  A successful `ADD-ACCESS` stores the target with the combined
permission `PERM_READ | PERM_WRITE`; `save_metadata` persists that value
as an `'R'` entry (the combined value is not `PERM_WRITE`, the only value
written as `'W'`), and the combined value never passes `check_access`'s
equality test for `WRITE`.  Afterwards the target passes the `READ` check
but `WRITE-COMMIT` and `UNDO` by the target are `UNAUTHORIZED`, while
`READ` is not. -/
theorem c9_addaccess_read_only (st : SSState)
    (caller f target payload : String) (info : SSMetaInfo)
    (aclC : List (String × Char)) (now sidx : Int)
    (edits : List (Int × List Char))
    (hm : assocGet st.meta f = some (info, aclC))
    (howner : info.owner = caller)
    (htarget : scanString payload = target)
    (hneq : info.owner ≠ target)
    (hnotin : ∀ e ∈ aclC, e.1 ≠ target)
    (hlen : aclC.length < MAX_ACL_ENTRIES) :
    (handle_add_access st caller f payload).1.code = SUCCESS ∧
    assocGet (handle_add_access st caller f payload).2.meta f =
      some (info,
        (aclC.map fun e => (e.1, permToChar (parsePermChar e.2))) ++
          [(target, 'R')]) ∧
    permToChar (PERM_READ ||| PERM_WRITE) = 'R' ∧
    (PERM_READ ||| PERM_WRITE) ≠ PERM_WRITE ∧
    check_access (handle_add_access st caller f payload).2 f target
      PERM_READ = true ∧
    check_access (handle_add_access st caller f payload).2 f target
      PERM_WRITE = false ∧
    (handle_write_commit (handle_add_access st caller f payload).2 target f
      sidx edits now).1.code = ERR_UNAUTHORIZED ∧
    (handle_undo (handle_add_access st caller f payload).2 target f
      now).1.code = ERR_UNAUTHORIZED ∧
    (handle_read_file (handle_add_access st caller f payload).2 target f
      now).1.code ≠ ERR_UNAUTHORIZED := by
  have hpr : permToChar (PERM_READ ||| PERM_WRITE) = 'R' := by decide
  have hload : load_metadata st f =
      some (info, aclC.map fun e => (e.1, parsePermChar e.2)) := by
    simp [load_metadata, hm]
  have hany : ((aclC.map fun e => (e.1, parsePermChar e.2)).any
      fun e => decide (e.1 = target)) = false := by
    rw [List.any_eq_false]
    intro x hx
    obtain ⟨y, hy, rfl⟩ := List.mem_map.mp hx
    simp [hnotin y hy]
  have hlen2 : ¬ (MAX_ACL_ENTRIES ≤ aclC.length) := by omega
  have hres : handle_add_access st caller f payload =
      ({ code := SUCCESS },
       save_metadata st f info
         ((aclC.map fun e => (e.1, parsePermChar e.2)) ++
          [(target, PERM_READ ||| PERM_WRITE)])) := by
    simp [handle_add_access, hload, howner, htarget, hany, hlen2]
  rw [hres]
  have hmeta2 : assocGet (save_metadata st f info
      ((aclC.map fun e => (e.1, parsePermChar e.2)) ++
       [(target, PERM_READ ||| PERM_WRITE)])).meta f =
      some (info,
        (aclC.map fun e => (e.1, permToChar (parsePermChar e.2))) ++
          [(target, 'R')]) := by
    simp [save_metadata, assocGet_put_self, List.map_append, List.map_map,
      Function.comp, hpr]
  have hnotin2 : ∀ e ∈ (aclC.map fun e => (e.1, permToChar (parsePermChar e.2))),
      e.1 ≠ target := by
    intro e he
    obtain ⟨x, hx, rfl⟩ := List.mem_map.mp he
    exact hnotin x hx
  have hfind : ((aclC.map fun e => (e.1, permToChar (parsePermChar e.2))) ++
      [(target, 'R')]).find? (fun x => x.1 == target) =
      some (target, 'R') := by
    rw [find?_name_append_not_in _ _ _ hnotin2]
    exact if_pos rfl
  have hca := checkAcl_map_found _ target (target, 'R') hfind
  have hread : check_access (save_metadata st f info
      ((aclC.map fun e => (e.1, parsePermChar e.2)) ++
       [(target, PERM_READ ||| PERM_WRITE)])) f target PERM_READ = true := by
    rw [show check_access (save_metadata st f info
      ((aclC.map fun e => (e.1, parsePermChar e.2)) ++
       [(target, PERM_READ ||| PERM_WRITE)])) f target PERM_READ =
        checkAcl (((aclC.map fun e => (e.1, permToChar (parsePermChar e.2))) ++
          [(target, 'R')]).map fun x => (x.1, parsePermChar x.2)) target
          PERM_READ from by
      simp [check_access, load_metadata, hmeta2, hneq]]
    exact hca.1
  have hwrite : check_access (save_metadata st f info
      ((aclC.map fun e => (e.1, parsePermChar e.2)) ++
       [(target, PERM_READ ||| PERM_WRITE)])) f target PERM_WRITE = false := by
    rw [show check_access (save_metadata st f info
      ((aclC.map fun e => (e.1, parsePermChar e.2)) ++
       [(target, PERM_READ ||| PERM_WRITE)])) f target PERM_WRITE =
        checkAcl (((aclC.map fun e => (e.1, permToChar (parsePermChar e.2))) ++
          [(target, 'R')]).map fun x => (x.1, parsePermChar x.2)) target
          PERM_WRITE from by
      simp [check_access, load_metadata, hmeta2, hneq]]
    rw [hca.2]
    simp
  refine ⟨rfl, hmeta2, hpr, by decide, hread, hwrite, ?_, ?_, ?_⟩
  · simp [handle_write_commit, hwrite]
  · simp [handle_undo, hwrite]
  · cases h2 : load_file_content (save_metadata st f info
        ((aclC.map fun e => (e.1, parsePermChar e.2)) ++
         [(target, PERM_READ ||| PERM_WRITE)])) f BUFFER_SIZE with
    | none =>
      simp [handle_read_file, hread, h2, ERR_FILE_NOT_FOUND, ERR_UNAUTHORIZED]
    | some c =>
      simp [handle_read_file, hread, h2, SUCCESS, ERR_UNAUTHORIZED]

/-- C9 witness: `alice` grants `bob` access on `wSS`; `bob` then passes
the read check, is persisted as an `'R'` entry, and write-requiring
operations by `bob` are refused. -/
theorem c9_addaccess_read_only_witness :
    (handle_add_access wSS "alice" "n.txt" "bob").1.code = SUCCESS ∧
    check_access (handle_add_access wSS "alice" "n.txt" "bob").2 "n.txt"
      "bob" PERM_READ = true ∧
    check_access (handle_add_access wSS "alice" "n.txt" "bob").2 "n.txt"
      "bob" PERM_WRITE = false ∧
    (handle_write_commit (handle_add_access wSS "alice" "n.txt" "bob").2
      "bob" "n.txt" 0 [] 9).1.code = ERR_UNAUTHORIZED ∧
    (handle_undo (handle_add_access wSS "alice" "n.txt" "bob").2
      "bob" "n.txt" 9).1.code = ERR_UNAUTHORIZED :=
  have T := c9_addaccess_read_only wSS "alice" "n.txt" "bob" "bob" wMeta []
    9 0 [] (by decide) (by decide) (by decide) (by decide) (by decide)
    (by decide)
  ⟨T.1, T.2.2.2.2.1, T.2.2.2.2.2.1, T.2.2.2.2.2.2.1, T.2.2.2.2.2.2.2.1⟩

/-! ## C5: UNDO is a 1-step toggle -/

/-- Loading a persisted permission character and persisting it again does
not change the permission it parses to. -/
theorem parsePermChar_roundtrip (c : Char) :
    parsePermChar (permToChar (parsePermChar c)) = parsePermChar c := by
  by_cases h : c = 'W' <;>
    simp [parsePermChar, permToChar, h, PERM_READ, PERM_WRITE]

/-- `check_access` only reads the metadata store. -/
theorem check_access_meta_only (st st' : SSState) (h : st'.meta = st.meta)
    (f u : String) (req : Nat) :
    check_access st' f u req = check_access st f u req := by
  simp [check_access, load_metadata, h]

/-- A metadata refresh (load, change non-owner fields, save) does not
change the outcome of any access check. -/
theorem check_access_save_refresh (st : SSState) (f u : String) (req : Nat)
    (info info' : SSMetaInfo) (aclC : List (String × Char))
    (hm : assocGet st.meta f = some (info, aclC))
    (howner : info'.owner = info.owner) :
    check_access
      (save_metadata st f info' (aclC.map fun e => (e.1, parsePermChar e.2)))
      f u req = check_access st f u req := by
  have hlist :
      List.map ((fun e => ((e : String × Char).1, parsePermChar e.2)) ∘
        (fun e => ((e : String × Nat).1, permToChar e.2)) ∘
        (fun e => ((e : String × Char).1, parsePermChar e.2))) aclC =
      List.map (fun e => (e.1, parsePermChar e.2)) aclC :=
    List.map_congr_left
      (fun a _ => by simp [Function.comp, parsePermChar_roundtrip])
  simp [check_access, load_metadata, save_metadata, assocGet_put_self,
    List.map_map, hm, howner]
  rw [hlist]

/-- One `handle_undo` step on a file with an undo slot: the content and
the slot are swapped, metadata is refreshed (modified time and counters),
and the caller's write access survives. -/
theorem undo_step (st : SSState) (u f : String) (now : Int)
    (uc c : List Char) (info : SSMetaInfo) (aclC : List (String × Char))
    (hacc : check_access st f u PERM_WRITE = true)
    (hv : validate_filename f = true)
    (hu : assocGet st.undo f = some uc)
    (hf : assocGet st.files f = some c)
    (hm : assocGet st.meta f = some (info, aclC))
    (hul : uc.length < BUFFER_SIZE - 1)
    (hcl : c.length < BUFFER_SIZE - 1) :
    (handle_undo st u f now).1.code = SUCCESS ∧
    assocGet (handle_undo st u f now).2.files f = some uc ∧
    assocGet (handle_undo st u f now).2.undo f = some c ∧
    assocGet (handle_undo st u f now).2.meta f =
      some (refreshInfo info now uc,
            aclC.map fun e => (e.1, permToChar (parsePermChar e.2))) ∧
    check_access (handle_undo st u f now).2 f u PERM_WRITE = true := by
  have hlfc : load_file_content st f BUFFER_SIZE = some c := by
    have hne : ¬ (BUFFER_SIZE - 1 ≤ c.length) := by omega
    simp [load_file_content, hv, hf, hne]
  have htake : uc.take (BUFFER_SIZE - 1) = uc :=
    List.take_of_length_le (by omega)
  have hres : handle_undo st u f now =
      ({ code := SUCCESS },
       save_metadata
         { st with undo := assocPut st.undo f c,
                   files := assocPut st.files f uc } f
         (refreshInfo info now uc)
         (aclC.map fun e => (e.1, parsePermChar e.2))) := by
    simp [handle_undo, hacc, hu, hlfc, htake, save_file_content, hv,
      load_metadata, hm]
  rw [hres]
  refine ⟨rfl, ?_, ?_, ?_, ?_⟩
  · simp [save_metadata, assocGet_put_self]
  · simp [save_metadata]
    exact assocGet_put_self _ _ _
  · simp [save_metadata, assocGet_put_self, List.map_map, Function.comp]
  · have hgoal : check_access
        (save_metadata
          { st with undo := assocPut st.undo f c,
                    files := assocPut st.files f uc } f
          (refreshInfo info now uc)
          (aclC.map fun e => (e.1, parsePermChar e.2))) f u PERM_WRITE =
        true := by
      rw [check_access_save_refresh
          { st with undo := assocPut st.undo f c,
                    files := assocPut st.files f uc } f u PERM_WRITE info
          (refreshInfo info now uc) aclC hm rfl,
        check_access_meta_only st
          { st with undo := assocPut st.undo f c,
                    files := assocPut st.files f uc } rfl f u PERM_WRITE]
      exact hacc
    exact hgoal

/-- C5.  On a file with an undo slot, `UNDO` swaps content and slot, so a
second `UNDO` restores the pre-first-`UNDO` content; on a file without an
undo slot it answers `INVALID_PARAMETERS` and leaves the whole state
unchanged. -/
theorem c5_undo_toggle (st : SSState) (u f : String) (now now2 : Int)
    (hacc : check_access st f u PERM_WRITE = true)
    (hv : validate_filename f = true) :
    (∀ uc c, assocGet st.undo f = some uc → assocGet st.files f = some c →
      uc.length < BUFFER_SIZE - 1 → c.length < BUFFER_SIZE - 1 →
      (handle_undo st u f now).1.code = SUCCESS ∧
      assocGet (handle_undo st u f now).2.files f = some uc ∧
      assocGet (handle_undo st u f now).2.undo f = some c ∧
      (handle_undo (handle_undo st u f now).2 u f now2).1.code = SUCCESS ∧
      assocGet (handle_undo (handle_undo st u f now).2 u f now2).2.files f =
        some c) ∧
    (assocGet st.undo f = none →
      handle_undo st u f now = ({ code := ERR_INVALID_PARAMETERS }, st)) := by
  constructor
  · intro uc c hu hf hul hcl
    have hmeta : ∃ p, assocGet st.meta f = some p := by
      cases hmm : assocGet st.meta f with
      | none => simp [check_access, load_metadata, hmm] at hacc
      | some p => exact ⟨p, rfl⟩
    obtain ⟨⟨info, aclC⟩, hm⟩ := hmeta
    have S1 := undo_step st u f now uc c info aclC hacc hv hu hf hm hul hcl
    have S2 := undo_step (handle_undo st u f now).2 u f now2 c uc
      (refreshInfo info now uc)
      (aclC.map fun e => (e.1, permToChar (parsePermChar e.2)))
      S1.2.2.2.2 hv S1.2.2.1 S1.2.1 S1.2.2.2.1 hcl hul
    exact ⟨S1.1, S1.2.1, S1.2.2.1, S2.1, S2.2.1⟩
  · intro hnone
    simp [handle_undo, hacc, hnone]

/-- C5 witness: on `wSSU` (content `"A B"`, undo `"A"`) two successive
`UNDO`s give `"A"` then `"A B"` again; on `wSS` (no undo slot) `UNDO`
fails with `INVALID_PARAMETERS` and changes nothing. -/
theorem c5_undo_toggle_witness :
    (handle_undo wSSU "alice" "n.txt" 9).1.code = SUCCESS ∧
    assocGet (handle_undo wSSU "alice" "n.txt" 9).2.files "n.txt" =
      some "A".data ∧
    assocGet (handle_undo (handle_undo wSSU "alice" "n.txt" 9).2 "alice"
        "n.txt" 10).2.files "n.txt" = some "A B".data ∧
    handle_undo wSS "alice" "n.txt" 9 =
      ({ code := ERR_INVALID_PARAMETERS }, wSS) :=
  have P := (c5_undo_toggle wSSU "alice" "n.txt" 9 10 (by decide)
      (by decide)).1 "A".data "A B".data (by decide) (by decide) (by decide)
      (by decide)
  have Q := (c5_undo_toggle wSS "alice" "n.txt" 9 10 (by decide)
      (by decide)).2 (by decide)
  ⟨P.1, P.2.1, P.2.2.2.2, Q⟩

/-! ## Parser lemmas for C2 -/

/-- The trailing block of `parse_sentences` only emits non-empty
sentences. -/
theorem psFinish_nonempty (maxS : Nat) (buf : List Char)
    (acc : List (List Char)) (h : ∀ s ∈ acc, s ≠ []) :
    ∀ s ∈ psFinish maxS buf acc, s ≠ [] := by
  intro s hs
  simp only [psFinish] at hs
  by_cases h1 : buf = []
  · rw [if_pos h1] at hs; exact h s hs
  · rw [if_neg h1] at hs
    by_cases h2 : maxS ≤ acc.length
    · rw [if_pos h2] at hs; exact h s hs
    · rw [if_neg h2] at hs
      by_cases h3 : trimBoth buf = []
      · rw [if_pos h3] at hs; exact h s hs
      · rw [if_neg h3] at hs
        rcases List.mem_append.mp hs with h4 | h4
        · exact h s h4
        · rw [List.mem_singleton] at h4; rw [h4]; exact h3

/-- The main loop of `parse_sentences` only emits non-empty sentences. -/
theorem psGo_nonempty (maxS maxLen : Nat) (text : List Char) :
    ∀ (buf : List Char) (acc : List (List Char)),
      (∀ s ∈ acc, s ≠ []) → ∀ s ∈ psGo maxS maxLen text buf acc, s ≠ [] := by
  induction text with
  | nil => intro buf acc h; exact psFinish_nonempty maxS buf acc h
  | cons c rest ih =>
    intro buf acc h
    simp only [psGo]
    by_cases h1 : maxS ≤ acc.length
    · rw [if_pos h1]; exact psFinish_nonempty maxS buf acc h
    · rw [if_neg h1]
      by_cases h2 : isDelim c = true
      · rw [if_pos h2]
        by_cases h3 : trimLeading (buf ++ [c]) = []
        · rw [if_pos h3]; exact ih (buf ++ [c]) acc h
        · rw [if_neg h3]
          refine ih [] (acc ++ [trimLeading (buf ++ [c])]) ?_
          intro s hs
          rcases List.mem_append.mp hs with h4 | h4
          · exact h s h4
          · rw [List.mem_singleton] at h4; rw [h4]; exact h3
      · rw [if_neg h2]
        by_cases h4 : maxLen - 1 ≤ (buf ++ [c]).length
        · rw [if_pos h4]
          refine ih [] (acc ++ [buf ++ [c]]) ?_
          intro s hs
          rcases List.mem_append.mp hs with h5 | h5
          · exact h s h5
          · rw [List.mem_singleton] at h5; rw [h5]; simp
        · rw [if_neg h4]; exact ih (buf ++ [c]) acc h

/-- Every sentence `parse_sentences` produces is non-empty. -/
theorem parse_sentences_nonempty (maxS maxLen : Nat) (text : List Char) :
    ∀ s ∈ parse_sentences maxS maxLen text, s ≠ [] :=
  psGo_nonempty maxS maxLen text [] [] (by intro s hs; simp at hs)

/-- When everything fits in the buffer and no element is empty, the
joining loop of `rebuild_text` appends a space before each element
(`notFirst = true` case). -/
theorem joinLoop_true_eq (maxLen : Nat) (l : List (List Char)) :
    ∀ out : List Char, (∀ s ∈ l, s ≠ []) →
      out.length + (joinTrue l).length ≤ maxLen - 1 →
      joinLoop maxLen l true out = out ++ joinTrue l := by
  induction l with
  | nil => intro out h hlen; simp [joinLoop, joinTrue]
  | cons s rest ih =>
    intro out h hlen
    have hs : s ≠ [] := h s (by simp)
    have hslen : 1 ≤ s.length := List.length_pos.mpr hs
    have hjt : joinTrue (s :: rest) = ' ' :: (s ++ joinTrue rest) := rfl
    have hlen' :
        out.length + 1 + s.length + (joinTrue rest).length ≤
          maxLen - 1 := by
      rw [hjt] at hlen
      simp at hlen
      omega
    have h1 : out.length < maxLen - 1 := by omega
    have h2 : out.length < maxLen - 2 := by omega
    have htk : s.take (maxLen - (out ++ [' ']).length - 1) = s :=
      List.take_of_length_le (by simp; omega)
    simp only [joinLoop]
    rw [if_pos h1, if_pos ⟨trivial, h2⟩]
    rw [show strncatT (out ++ [' ']) s maxLen = (out ++ [' ']) ++ s from by
      rw [strncatT, htk]]
    rw [ih ((out ++ [' ']) ++ s) (fun x hx => h x (by simp [hx]))
      (by simp; omega)]
    simp [joinTrue, List.append_assoc]

/-- `rebuild_text` is the single-space join when all elements are
non-empty and the join fits in the buffer. -/
theorem rebuild_text_eq_joinWithSpace (maxLen : Nat) (l : List (List Char))
    (hne : ∀ s ∈ l, s ≠ [])
    (hlen : (joinWithSpace l).length ≤ maxLen - 1) :
    rebuild_text l maxLen = joinWithSpace l := by
  cases l with
  | nil => rfl
  | cons s rest =>
    have hs : s ≠ [] := hne s (by simp)
    have hslen : 1 ≤ s.length := List.length_pos.mpr hs
    have hlen' : s.length + (joinTrue rest).length ≤ maxLen - 1 := by
      simpa [joinWithSpace] using hlen
    have h1 : ([] : List Char).length < maxLen - 1 := by simp; omega
    have htk : s.take (maxLen - ([] : List Char).length - 1) = s :=
      List.take_of_length_le (by simp; omega)
    simp only [rebuild_text, joinLoop]
    rw [if_pos h1, if_neg (by simp)]
    rw [show strncatT [] s maxLen = s from by rw [strncatT, htk]; simp]
    rw [joinLoop_true_eq maxLen rest s (fun x hx => hne x (by simp [hx]))
      (by omega)]
    rfl

/-! ## C2: WRITE-COMMIT splices re-parsed sentences -/

/-- C2.  An authorized WRITE-COMMIT with `sentence_index` outside
`[0, sentence_count]` fails with `INVALID_INDEX`; with a valid index and
edits that all apply, the stored content becomes exactly the sentences
before the index, the re-parse of the edited sentence, and the sentences
after the index, joined by single spaces (`spliceSpec`), provided the
result fits the 8 KiB content buffer. -/
theorem c2_write_commit_splice (st : SSState) (u f : String) (sidx : Int)
    (edits : List (Int × List Char)) (now : Int)
    (hacc : check_access st f u PERM_WRITE = true)
    (hv : validate_filename f = true) :
    ((sidx < 0 ∨
        ((parse_sentences MAX_SENTENCES MAX_SENTENCE_LENGTH
          (wcContent st f)).length : Int) < sidx) →
      (handle_write_commit st u f sidx edits now).1.code =
        ERR_INVALID_INDEX) ∧
    (∀ edited, 0 ≤ sidx →
      sidx ≤ ((parse_sentences MAX_SENTENCES MAX_SENTENCE_LENGTH
        (wcContent st f)).length : Int) →
      applyEdits (wcTarget (parse_sentences MAX_SENTENCES
        MAX_SENTENCE_LENGTH (wcContent st f)) sidx) edits = .ok edited →
      (spliceSpec (wcContent st f) edited sidx.toNat).length ≤
        BUFFER_SIZE - 1 →
      (handle_write_commit st u f sidx edits now).1.code = SUCCESS ∧
      assocGet (handle_write_commit st u f sidx edits now).2.files f =
        some (spliceSpec (wcContent st f) edited sidx.toNat)) := by
  constructor
  · intro hbad
    simp [handle_write_commit, hacc, hbad]
  · intro edited h0 h1 happ hfit
    have hidx : ¬ (sidx < 0 ∨
        ((parse_sentences MAX_SENTENCES MAX_SENTENCE_LENGTH
          (wcContent st f)).length : Int) < sidx) := by omega
    have hmeta : ∃ p, assocGet st.meta f = some p := by
      cases hmm : assocGet st.meta f with
      | none => simp [check_access, load_metadata, hmm] at hacc
      | some p => exact ⟨p, rfl⟩
    obtain ⟨⟨info, aclC⟩, hm⟩ := hmeta
    have hsplice : rebuild_text
        ((parse_sentences MAX_SENTENCES MAX_SENTENCE_LENGTH
          (wcContent st f)).take sidx.toNat ++
         (parse_sentences MAX_SENTENCES MAX_SENTENCE_LENGTH edited ++
          (parse_sentences MAX_SENTENCES MAX_SENTENCE_LENGTH
           (wcContent st f)).drop (sidx.toNat + 1))) BUFFER_SIZE =
        spliceSpec (wcContent st f) edited sidx.toNat := by
      rw [← List.append_assoc]
      simp only [spliceSpec]
      refine rebuild_text_eq_joinWithSpace BUFFER_SIZE _ ?_
        (by simpa [spliceSpec] using hfit)
      intro s hs
      rcases List.mem_append.mp hs with h5 | h5
      · rcases List.mem_append.mp h5 with h6 | h6
        · exact parse_sentences_nonempty _ _ _ s (List.take_subset _ _ h6)
        · exact parse_sentences_nonempty _ _ _ s h6
      · exact parse_sentences_nonempty _ _ _ s (List.drop_subset _ _ h5)
    have hres : handle_write_commit st u f sidx edits now =
        ({ code := SUCCESS },
         save_metadata
           { st with
             undo := assocPut st.undo f (wcContent st f),
             files := assocPut st.files f
               (spliceSpec (wcContent st f) edited sidx.toNat) } f
           (refreshInfo info now
             (spliceSpec (wcContent st f) edited sidx.toNat))
           (aclC.map fun e => (e.1, parsePermChar e.2))) := by
      simp [handle_write_commit, hacc, hidx, happ, save_file_content, hv,
        load_metadata, hm, hsplice]
    rw [hres]
    constructor
    · rfl
    · simp [save_metadata, assocGet_put_self]

/-- C2 witness: on `wSS` (content `"Hi there"`), the commit
`0 | 2 "there." | 2 "New"` succeeds and stores the splice of the
re-parsed edited sentence, concretely `"Hi there New there."`. -/
theorem c2_write_commit_splice_witness :
    (handle_write_commit wSS "alice" "n.txt" 0
      [(2, "there.".data), (2, "New".data)] 9).1.code = SUCCESS ∧
    assocGet (handle_write_commit wSS "alice" "n.txt" 0
      [(2, "there.".data), (2, "New".data)] 9).2.files "n.txt" =
      some (spliceSpec "Hi there".data "Hi there New there.".data 0) ∧
    spliceSpec "Hi there".data "Hi there New there.".data 0 =
      "Hi there New there.".data :=
  have T := (c2_write_commit_splice wSS "alice" "n.txt" 0
    [(2, "there.".data), (2, "New".data)] 9 (by decide) (by decide)).2
    "Hi there New there.".data (by decide) (by decide) (by rfl)
    (by decide)
  ⟨T.1, T.2, by decide⟩

/-! ## C3: an invalid word index aborts the whole commit -/

/-- C3.  When the sequential application of the edit list hits a word
index outside `[0, current word count]` (i.e. `applyEdits` fails), the
commit answers `INVALID_INDEX` and the content store is unchanged — no
edit of the batch is persisted. -/
theorem c3_invalid_word_index_aborts (st : SSState) (u f : String)
    (sidx : Int) (edits : List (Int × List Char)) (now : Int)
    (hacc : check_access st f u PERM_WRITE = true)
    (herr : ∃ e, applyEdits (wcTarget (parse_sentences MAX_SENTENCES
      MAX_SENTENCE_LENGTH (wcContent st f)) sidx) edits = .error e) :
    (handle_write_commit st u f sidx edits now).1.code =
      ERR_INVALID_INDEX ∧
    (handle_write_commit st u f sidx edits now).2.files = st.files := by
  obtain ⟨e, he⟩ := herr
  by_cases hbad : sidx < 0 ∨
      ((parse_sentences MAX_SENTENCES MAX_SENTENCE_LENGTH
        (wcContent st f)).length : Int) < sidx
  · constructor <;> simp [handle_write_commit, hacc, hbad]
  · constructor <;> simp [handle_write_commit, hacc, hbad, he]

/-- C3 witness: on `wSS` (sentence `"Hi there"`, two words), the edit
`word_index 5` is out of range: the commit fails `INVALID_INDEX` and the
content store is untouched. -/
theorem c3_invalid_word_index_aborts_witness :
    (handle_write_commit wSS "alice" "n.txt" 0 [(5, "X".data)] 9).1.code =
      ERR_INVALID_INDEX ∧
    (handle_write_commit wSS "alice" "n.txt" 0 [(5, "X".data)] 9).2.files =
      wSS.files :=
  c3_invalid_word_index_aborts wSS "alice" "n.txt" 0 [(5, "X".data)] 9
    (by decide) ⟨ERR_INVALID_INDEX, by rfl⟩

/-! ## Hashmap key-order lemmas for C4 and C8 -/

theorem flatMap_eq_nil_of {α : Type} (l : List Nat) (g : Nat → List α)
    (h : ∀ x ∈ l, g x = []) : l.flatMap g = [] := by
  induction l with
  | nil => rfl
  | cons a rest ih =>
    simp [List.flatMap_cons, h a (by simp), ih (fun x hx => h x (by simp [hx]))]

/-- A `flatMap` over `range n` whose only non-empty bucket is `b`. -/
theorem flatMap_range_eq_single {α : Type} (g : Nat → List α) (n b : Nat)
    (hb : b < n) (h : ∀ i, i < n → i ≠ b → g i = []) :
    (List.range n).flatMap g = g b := by
  induction n with
  | zero => omega
  | succ n ih =>
    rw [List.range_succ, List.flatMap_append]
    by_cases hbn : b = n
    · have hnil : (List.range n).flatMap g = [] := by
        apply flatMap_eq_nil_of
        intro x hx
        have hxn : x < n := List.mem_range.mp hx
        exact h x (by omega) (by omega)
      rw [hnil, hbn]
      simp
    · have hgn : g n = [] := h n (by omega) (fun hh => hbn hh.symm)
      rw [ih (by omega) (fun i hi hib => h i (by omega) hib)]
      simp [hgn]

theorem djb2bucket_lt (k : String) : djb2bucket k < HASHMAP_SIZE := by
  unfold djb2bucket
  exact Nat.mod_lt _ (by norm_num [HASHMAP_SIZE])

/-- A key is listed by `hashmap_get_keys` iff it is a key of the map. -/
theorem mem_hmKeys {α : Type} (m : List (String × α)) (k : String) :
    k ∈ hmKeys m ↔ k ∈ m.map Prod.fst := by
  unfold hmKeys
  constructor
  · intro hk
    obtain ⟨b, _, hk2⟩ := List.mem_flatMap.mp hk
    exact (List.mem_filter.mp (List.mem_reverse.mp hk2)).1
  · intro hk
    refine List.mem_flatMap.mpr ⟨djb2bucket k, ?_, ?_⟩
    · exact List.mem_range.mpr (djb2bucket_lt k)
    · exact List.mem_reverse.mpr (List.mem_filter.mpr ⟨hk, by simp⟩)

theorem hmKeys_eq_nil_iff {α : Type} (m : List (String × α)) :
    hmKeys m = [] ↔ m = [] := by
  constructor
  · intro h
    cases hm : m with
    | nil => rfl
    | cons e rest =>
      have : e.1 ∈ hmKeys m := (mem_hmKeys m e.1).mpr (by simp [hm])
      rw [h] at this
      simp at this
  · intro h
    rw [h]
    exact flatMap_eq_nil_of _ _ (fun x _ => by simp)

/-- When every key of the map falls in bucket `b`, the key enumeration is
that single bucket's chain: the keys in reverse insertion order. -/
theorem hmKeys_single_bucket {α : Type} (m : List (String × α)) (b : Nat)
    (hb : b < HASHMAP_SIZE)
    (h : ∀ k ∈ m.map Prod.fst, djb2bucket k = b) :
    hmKeys m = ((m.map Prod.fst).filter (fun k => djb2bucket k = b)).reverse := by
  unfold hmKeys
  apply flatMap_range_eq_single _ _ b hb
  intro i _ hib
  rw [List.filter_eq_nil_iff.mpr, List.reverse_nil]
  intro k hk
  have hbk : djb2bucket k = b := h k hk
  simp [hbk]
  omega

/-- `assocGet` answers only entries of the list. -/
theorem assocGet_mem {α : Type} (m : List (String × α)) (k : String)
    (v : α) (h : assocGet m k = some v) : (k, v) ∈ m := by
  induction m with
  | nil => simp [assocGet] at h
  | cons e rest ih =>
    obtain ⟨e1, e2⟩ := e
    by_cases he : e1 = k
    · simp [assocGet, he] at h
      subst he
      rw [← h]
      exact List.mem_cons_self _ _
    · simp [assocGet, he] at h
      exact List.mem_cons_of_mem _ (ih h)

/-- With no connected node registered, the selection scan of
`handle_create` finds nothing. -/
theorem createScan_none_of_disconnected (reg : List (String × SSNodeInfo))
    (h : ∀ p ∈ reg, p.2.connected = false) :
    ∀ (ks : List String) (minF : Int),
      createScan reg ks minF none = none := by
  intro ks
  induction ks with
  | nil => intro minF; rfl
  | cons k rest ih =>
    intro minF
    simp only [createScan]
    cases hg : assocGet reg k with
    | none => exact ih minF
    | some ss =>
      have hc : ss.connected = false := h (k, ss) (assocGet_mem reg k ss hg)
      simp [hc]
      exact ih minF

/-! ## C4: CREATE placement -/

/-- C4 counterexample.  (a) With a single registered but *disconnected*
node, CREATE succeeds (`SUCCESS`, not `NO_STORAGE_SERVERS`): the code
falls back to the first key.  (b) With two connected nodes of equal
`file_count` registered in the order `az` then `bY` (two ids in the same
hash bucket), the file is placed on `bY` — the *later* registered node —
so ties are not broken by registration order. -/
theorem c4_create_counterexample :
    (handle_create wNMdown "alice" "f.txt" 5).1.code = SUCCESS ∧
    SUCCESS ≠ ERR_NO_STORAGE_SERVERS ∧
    assocGet (handle_create wNMtwo "alice" "f.txt" 5).2.ss_registry "bY" =
      some { wNodeBy with file_count := 1 } ∧
    assocGet (handle_create wNMtwo "alice" "f.txt" 5).2.ss_registry "az" =
      some wNodeAz := by
  have hkd : hmKeys wNMdown.ss_registry = ["az"] := by
    rw [hmKeys_single_bucket wNMdown.ss_registry 832 (by decide) (by decide)]
    decide
  have hkt : hmKeys wNMtwo.ss_registry = ["bY", "az"] := by
    rw [hmKeys_single_bucket wNMtwo.ss_registry 832 (by decide) (by decide)]
    decide
  have hseld : createSelect wNMdown = some { wNodeAz with connected := false } := by
    simp only [createSelect]
    rw [hkd]
    decide
  have hselt : createSelect wNMtwo = some wNodeBy := by
    simp only [createSelect]
    rw [hkt]
    decide
  refine ⟨?_, by decide, ?_, ?_⟩
  · simp only [handle_create]
    rw [hkd, hseld]
    decide
  · simp only [handle_create]
    rw [hkt, hselt]
    simp only [save_file_registry]
    decide
  · simp only [handle_create]
    rw [hkt, hselt]
    simp only [save_file_registry]
    decide

/-- C4 (amended).  CREATE on a fresh filename: `NO_STORAGE_SERVERS` only
when no node is registered at all; with no *connected* node the selection
scan finds nothing and the code falls back to the first key of the
stride-read bucket-order view, succeeding anyway; whichever node is
selected gets its `file_count` incremented, the `FileRecord` is
registered and persisted, and the node's endpoint is returned. -/
theorem c4_create_placement (st : NMState) (user f : String) (now : Int)
    (hnew : assocGet st.file_registry f = none) :
    (st.ss_registry = [] →
      handle_create st user f now = ({ code := ERR_NO_STORAGE_SERVERS }, st)) ∧
    ((∀ p ∈ st.ss_registry, p.2.connected = false) →
      createScan st.ss_registry (createKeysRead (hmKeys st.ss_registry))
        2147483647 none = none ∧
      createSelect st = assocGet st.ss_registry
        ((createKeysRead (hmKeys st.ss_registry)).getD 0 "")) ∧
    (∀ ss, st.ss_registry ≠ [] → createSelect st = some ss →
      (handle_create st user f now).1 =
        { code := SUCCESS, data := ss.ip ++ "|" ++ toString ss.client_port } ∧
      assocGet (handle_create st user f now).2.ss_registry ss.ss_id =
        some { ss with file_count := ss.file_count + 1 } ∧
      assocGet (handle_create st user f now).2.file_registry f =
        some { filename := f, owner := user, ss_id := ss.ss_id,
               created := now, modified := now, accessed := now,
               last_accessed_by := user, word_count := 0, char_count := 0 } ∧
      (handle_create st user f now).2.registry_disk =
        save_file_registry (assocPut st.file_registry f
          { filename := f, owner := user, ss_id := ss.ss_id,
            created := now, modified := now, accessed := now,
            last_accessed_by := user, word_count := 0, char_count := 0 })) := by
  refine ⟨fun hempty => ?_, fun hdis => ?_, fun ss hne hsel => ?_⟩
  · have hk : hmKeys st.ss_registry = [] := (hmKeys_eq_nil_iff _).mpr hempty
    simp [handle_create, hnew, hk]
  · have hscan := createScan_none_of_disconnected st.ss_registry hdis
      (createKeysRead (hmKeys st.ss_registry)) 2147483647
    exact ⟨hscan, by simp [createSelect, hscan]⟩
  · have hk : ¬ ((hmKeys st.ss_registry).length = 0) := by
      intro h0
      exact hne ((hmKeys_eq_nil_iff _).mp (List.length_eq_zero.mp h0))
    refine ⟨?_, ?_, ?_, ?_⟩ <;>
      simp [handle_create, hnew, hk, hsel, assocGet_put_self]

/-- C4 witness (for the amended claim): on `wNMdown` — one registered,
disconnected node — the scan finds nothing, yet CREATE succeeds and
places the file on that node, incrementing its `file_count`. -/
theorem c4_create_placement_witness :
    createScan wNMdown.ss_registry
      (createKeysRead (hmKeys wNMdown.ss_registry)) 2147483647 none =
      none ∧
    (handle_create wNMdown "alice" "f.txt" 5).1 =
      { code := SUCCESS,
        data := ({ wNodeAz with connected := false } : SSNodeInfo).ip ++ "|" ++
          toString ({ wNodeAz with connected := false } : SSNodeInfo).client_port } ∧
    assocGet (handle_create wNMdown "alice" "f.txt" 5).2.ss_registry "az" =
      some { wNodeAz with connected := false, file_count := 1 } :=
  have hseld : createSelect wNMdown =
      some { wNodeAz with connected := false } := by
    simp only [createSelect]
    rw [show hmKeys wNMdown.ss_registry = ["az"] from by
      rw [hmKeys_single_bucket wNMdown.ss_registry 832 (by decide) (by decide)]
      decide]
    decide
  have T := c4_create_placement wNMdown "alice" "f.txt" 5 (by decide)
  have P := T.2.2 { wNodeAz with connected := false } (by decide) hseld
  ⟨(T.2.1 (by decide)).1, P.1, P.2.1⟩

/-! ## C6: APPROVE of an access request -/

theorem takeWhile_all {p : Char → Bool} :
    ∀ l : List Char, (∀ c ∈ l, p c = true) → l.takeWhile p = l := by
  intro l h
  induction l with
  | nil => rfl
  | cons c rest ih =>
    rw [List.takeWhile_cons, h c (by simp)]
    rw [ih (fun x hx => h x (by simp [hx]))]
    simp

/-- C6 counterexample.  `alice` approves `bob`'s pending request on
`n.txt`: the coordinator reports `SUCCESS`, but the storage node's ACL
now holds the literal username `"-R|bob"` (with read permission) and
`bob` himself still fails the read access check — the requester was
*not* granted read permission. -/
theorem c6_approve_counterexample :
    (handle_approve_request wNMreq wSS "alice" "n.txt|bob").1.code =
      SUCCESS ∧
    assocGet (handle_approve_request wNMreq wSS "alice" "n.txt|bob").2.2.meta
      "n.txt" = some (wMeta, [("-R|bob", 'R')]) ∧
    check_access (handle_approve_request wNMreq wSS "alice" "n.txt|bob").2.2
      "n.txt" "bob" PERM_READ = false := by
  refine ⟨?_, ?_, ?_⟩ <;> decide

/-- C6 (amended).  Given a pending request `(fn, requester)` and the
registered file: a caller who is not the owner gets `UNAUTHORIZED` and
nothing changes (the request stays pending).  The owner, with the hosting
node connected, gets `SUCCESS`; the request is marked granted and the
node runs `ADD-ACCESS` on the payload `"-R|requester"` — whose `%s` scan
is the whole string `"-R|" ++ requester`, so that literal name (not the
requester) is what can enter the ACL. -/
theorem c6_approve_request (nm : NMState) (ss : SSState)
    (caller fn requester data : String) (req : AccessRequestRec)
    (file : NMFileInfo)
    (hdata : parseApproveData data = some (fn, requester))
    (hreq : assocGet nm.access_requests (fn ++ ":" ++ requester) = some req)
    (hpend : req.pending = true)
    (hfile : assocGet nm.file_registry fn = some file) :
    (file.owner ≠ caller →
      handle_approve_request nm ss caller data =
        ({ code := ERR_UNAUTHORIZED }, nm, ss)) ∧
    (∀ ssInfo, file.owner = caller →
      assocGet nm.ss_registry
        ((assocGet nm.file_cache fn).getD file).ss_id = some ssInfo →
      ssInfo.connected = true →
      (handle_approve_request nm ss caller data).1.code = SUCCESS ∧
      assocGet (handle_approve_request nm ss caller data).2.1.access_requests
        (fn ++ ":" ++ requester) = some { req with pending := false } ∧
      (handle_approve_request nm ss caller data).2.2 =
        (handle_add_access ss caller fn ("-R|" ++ requester)).2) ∧
    ((∀ c ∈ requester.data, csIsSpace c = false) →
      scanString ("-R|" ++ requester) = "-R|" ++ requester) := by
  refine ⟨fun howner => ?_, fun ssInfo howner hss hconn => ?_, fun hws => ?_⟩
  · simp [handle_approve_request, hdata, hreq, hpend, hfile, howner]
  · refine ⟨?_, ?_, ?_⟩ <;>
      simp [handle_approve_request, hdata, hreq, hpend, hfile, howner,
        hss, hconn, assocGet_put_self]
  · have hd : ("-R|" ++ requester).data =
        '-' :: 'R' :: '|' :: requester.data := rfl
    have hall : ∀ c ∈ '-' :: 'R' :: '|' :: requester.data,
        (fun c => decide (¬ csIsSpace c = true)) c = true := by
      intro c hc
      rcases List.mem_cons.mp hc with rfl | hc
      · decide
      rcases List.mem_cons.mp hc with rfl | hc
      · decide
      rcases List.mem_cons.mp hc with rfl | hc
      · decide
      simp [hws c hc]
    simp only [scanString, hd, List.dropWhile_cons]
    rw [if_neg (by decide), takeWhile_all _ hall]
    rfl

/-- C6 witness: `bob` (not the owner) is refused and the request stays
pending; `alice` (the owner) succeeds, the request is marked granted, the
node state is the one `ADD-ACCESS` on payload `"-R|bob"` produces, and
that payload's `%s` scan is the whole literal `"-R|bob"`. -/
theorem c6_approve_request_witness :
    handle_approve_request wNMreq wSS "bob" "n.txt|bob" =
      ({ code := ERR_UNAUTHORIZED }, wNMreq, wSS) ∧
    (handle_approve_request wNMreq wSS "alice" "n.txt|bob").1.code =
      SUCCESS ∧
    assocGet (handle_approve_request wNMreq wSS "alice"
        "n.txt|bob").2.1.access_requests ("n.txt" ++ ":" ++ "bob") =
      some { wReq with pending := false } ∧
    (handle_approve_request wNMreq wSS "alice" "n.txt|bob").2.2 =
      (handle_add_access wSS "alice" "n.txt" ("-R|" ++ "bob")).2 ∧
    scanString ("-R|" ++ "bob") = "-R|" ++ "bob" :=
  have T1 := c6_approve_request wNMreq wSS "bob" "n.txt" "bob" "n.txt|bob"
    wReq wFileRec (by decide) (by decide) (by decide) (by decide)
  have T2 := c6_approve_request wNMreq wSS "alice" "n.txt" "bob" "n.txt|bob"
    wReq wFileRec (by decide) (by decide) (by decide) (by decide)
  have P := T2.2.1 wNode1 (by decide) (by decide) (by decide)
  ⟨T1.1 (by decide), P.1, P.2.1, P.2.2, T2.2.2 (by decide)⟩

/-- C1 witness: in the concrete state `wNM`, `alice` acquires
`(n.txt, 0)`; `bob`'s acquire is refused with `alice` named as holder. -/
theorem c1_lease_uniqueness_witness :
    (handle_lock_acquire (handle_lock_acquire wNM "alice" "n.txt" 0 6).2
        "bob" "n.txt" 0 7).1 =
      { code := ERR_FILE_LOCKED, data := "Sentence locked by " ++ "alice" } ∧
    (handle_lock_acquire (handle_lock_acquire wNM "alice" "n.txt" 0 6).2
        "alice" "n.txt" 0 8).1.code = SUCCESS :=
  ⟨((c1_lease_uniqueness wNM "alice" "bob" "n.txt" 0 6 7 8 (by decide)).1
      (by decide)).1,
   (c1_lease_uniqueness wNM "alice" "bob" "n.txt" 0 6 7 8 (by decide)).2⟩

/-! ### C8: registry persistence round trip -/

theorem decDigit_isDigit (d : Nat) (h : d < 10) :
    (decDigit d).isDigit = true := by
  interval_cases d <;> decide

theorem decDigit_val (d : Nat) (h : d < 10) : (decDigit d).toNat - 48 = d := by
  interval_cases d <;> decide

theorem isDigit_not_space (c : Char) (h : c.isDigit = true) :
    csIsSpace c = false := by
  cases hc : csIsSpace c
  · rfl
  · exfalso
    have hor : c = ' ' ∨ c = '\t' ∨ c = '\n' ∨ c = '\x0b' ∨ c = '\x0c' ∨
        c = '\r' := by
      simpa [csIsSpace, or_assoc] using hc
    rcases hor with rfl | rfl | rfl | rfl | rfl | rfl <;>
      exact absurd h (by decide)

theorem isDigit_ne_dash (c : Char) (h : c.isDigit = true) : ¬ c = '-' := by
  intro he
  rw [he] at h
  exact absurd h (by decide)

theorem isDigit_ne_plus (c : Char) (h : c.isDigit = true) : ¬ c = '+' := by
  intro he
  rw [he] at h
  exact absurd h (by decide)

theorem dropWhile_not_space_head (c : Char) (l : List Char)
    (h : csIsSpace c = false) :
    (c :: l).dropWhile csIsSpace = c :: l := by
  simp [List.dropWhile_cons, h]

theorem natToDigits_ne_nil (n : Nat) : natToDigits n ≠ [] := by
  rw [natToDigits]
  split <;> simp

theorem natToDigits_all_digits (n : Nat) :
    ∀ c ∈ natToDigits n, c.isDigit = true := by
  induction n using Nat.strong_induction_on with
  | _ n ih =>
    rw [natToDigits]
    by_cases h : n < 10
    · rw [dif_pos h]
      intro c hc
      rw [List.mem_singleton] at hc
      subst hc
      exact decDigit_isDigit n h
    · rw [dif_neg h]
      intro c hc
      rcases List.mem_append.mp hc with hc | hc
      · exact ih (n / 10) (Nat.div_lt_self (by omega) (by omega)) c hc
      · rw [List.mem_singleton] at hc
        subst hc
        exact decDigit_isDigit (n % 10) (Nat.mod_lt n (by omega))

theorem parseNatAux_digits (n : Nat) :
    ∀ (acc : Nat) (rest : List Char),
      parseNatAux acc (natToDigits n ++ rest) =
        parseNatAux (acc * 10 ^ (natToDigits n).length + n) rest := by
  induction n using Nat.strong_induction_on with
  | _ n ih =>
    intro acc rest
    by_cases h : n < 10
    · rw [natToDigits, dif_pos h]
      simp only [List.cons_append, List.nil_append, parseNatAux]
      rw [if_pos (decDigit_isDigit n h), decDigit_val n h]
      simp only [List.length_singleton, pow_one]
      rfl
    · rw [natToDigits, dif_neg h]
      rw [List.append_assoc,
        ih (n / 10) (Nat.div_lt_self (by omega) (by omega)) acc
          ([decDigit (n % 10)] ++ rest)]
      simp only [List.cons_append, List.nil_append, parseNatAux]
      rw [if_pos (decDigit_isDigit (n % 10) (Nat.mod_lt n (by omega))),
        decDigit_val (n % 10) (Nat.mod_lt n (by omega))]
      have hlen : (natToDigits (n / 10) ++ [decDigit (n % 10)]).length =
          (natToDigits (n / 10)).length + 1 := by simp
      rw [hlen]
      have hdm : n / 10 * 10 + n % 10 = n := by omega
      have harith :
          (acc * 10 ^ (natToDigits (n / 10)).length + n / 10) * 10 + n % 10 =
            acc * 10 ^ ((natToDigits (n / 10)).length + 1) + n := by
        calc (acc * 10 ^ (natToDigits (n / 10)).length + n / 10) * 10 + n % 10
            = acc * (10 ^ (natToDigits (n / 10)).length * 10) +
              (n / 10 * 10 + n % 10) := by ring
          _ = acc * 10 ^ ((natToDigits (n / 10)).length + 1) + n := by
              rw [hdm, pow_succ]
      rw [harith]
      rfl

theorem parseNatAux_stop (n : Nat) (rest : List Char)
    (h : ∀ c, rest.head? = some c → c.isDigit = false) :
    parseNatAux n rest = (n, rest) := by
  cases rest with
  | nil => rfl
  | cons c t =>
    have hc := h c rfl
    simp [parseNatAux, hc]

theorem parseNatFrom_digits (n : Nat) (rest : List Char)
    (hrest : ∀ c, rest.head? = some c → c.isDigit = false) :
    parseNatFrom (natToDigits n ++ rest) = some (n, rest) := by
  have key : parseNatAux 0 (natToDigits n ++ rest) = (n, rest) := by
    rw [parseNatAux_digits n 0 rest]
    simp only [Nat.zero_mul, Nat.zero_add]
    exact parseNatAux_stop n rest hrest
  cases hd : natToDigits n with
  | nil => exact absurd hd (natToDigits_ne_nil n)
  | cons d ds =>
    have hddig : d.isDigit = true :=
      natToDigits_all_digits n d (by rw [hd]; exact List.mem_cons_self d ds)
    rw [hd] at key
    simp only [parseNatAux] at key
    rw [if_pos hddig] at key
    simp only [Nat.zero_mul, Nat.zero_add] at key
    rw [List.cons_append]
    simp only [parseNatFrom]
    rw [if_pos hddig]
    exact congrArg some key

theorem parseIntFrom_intToChars (i : Int) (rest : List Char)
    (hrest : ∀ c, rest.head? = some c → c.isDigit = false) :
    parseIntFrom (intToChars i ++ rest) = some (i, rest) := by
  by_cases hi : i < 0
  · rw [intToChars, if_pos hi, List.cons_append]
    simp only [parseIntFrom]
    rw [dropWhile_not_space_head '-' (natToDigits i.natAbs ++ rest)
      (by decide)]
    simp only [parseIntCore, if_true]
    rw [parseNatFrom_digits i.natAbs rest hrest]
    have hni : -((i.natAbs : Nat) : Int) = i := by omega
    simp only [Option.map_some', Option.some.injEq, Prod.mk.injEq, and_true]
    exact hni
  · rw [intToChars, if_neg hi]
    obtain ⟨d, ds, hd⟩ : ∃ d ds, natToDigits i.toNat = d :: ds := by
      cases hnd : natToDigits i.toNat with
      | nil => exact absurd hnd (natToDigits_ne_nil _)
      | cons d ds => exact ⟨d, ds, rfl⟩
    have hddig : d.isDigit = true :=
      natToDigits_all_digits i.toNat d
        (by rw [hd]; exact List.mem_cons_self d ds)
    rw [hd, List.cons_append]
    simp only [parseIntFrom]
    rw [dropWhile_not_space_head d (ds ++ rest) (isDigit_not_space d hddig)]
    simp only [parseIntCore]
    rw [if_neg (isDigit_ne_dash d hddig), if_neg (isDigit_ne_plus d hddig),
      ← List.cons_append, ← hd, parseNatFrom_digits i.toNat rest hrest]
    have hti : ((i.toNat : Nat) : Int) = i := by omega
    simp only [Option.map_some', Option.some.injEq, Prod.mk.injEq, and_true]
    exact hti

theorem parseIntFrom_intToChars_nil (i : Int) :
    parseIntFrom (intToChars i) = some (i, []) := by
  have h := parseIntFrom_intToChars i [] (fun c hc => by simp at hc)
  simpa using h

theorem takeWhile_append_stop (p : Char → Bool) :
    ∀ (a b : List Char), (∀ c ∈ a, p c = true) →
      (∀ c, b.head? = some c → p c = false) →
      (a ++ b).takeWhile p = a := by
  intro a
  induction a with
  | nil =>
    intro b _ hb
    cases b with
    | nil => rfl
    | cons c t =>
      simp only [List.nil_append]
      simp [List.takeWhile_cons, hb c rfl]
  | cons x xs ih =>
    intro b ha hb
    simp only [List.cons_append]
    rw [List.takeWhile_cons, if_pos (ha x (List.mem_cons_self x xs)),
      ih b (fun c hc => ha c (List.mem_cons_of_mem x hc)) hb]

theorem scanSetNonBar_append (a : List Char) (ha : a ≠ [])
    (hbar : ∀ c ∈ a, ¬ c = '|') (rest : List Char) :
    scanSetNonBar (a ++ '|' :: rest) = some (a, '|' :: rest) := by
  have ht : (a ++ '|' :: rest).takeWhile (fun c => c ≠ '|') = a := by
    apply takeWhile_append_stop
    · intro c hc
      simp [hbar c hc]
    · intro c hc
      have hc2 : '|' = c := by simpa using hc
      subst hc2
      decide
  simp only [scanSetNonBar]
  rw [ht, if_neg ha, List.drop_left]

theorem parseStrBar_append (a : List Char) (ha : a ≠ [])
    (hbar : ∀ c ∈ a, ¬ c = '|') (rest : List Char) :
    parseStrBar (a ++ '|' :: rest) = some (a, rest) := by
  simp only [parseStrBar]
  rw [scanSetNonBar_append a ha hbar rest]
  rfl

theorem parseIntBar_append (i : Int) (rest : List Char) :
    parseIntBar (intToChars i ++ '|' :: rest) = some (i, rest) := by
  simp only [parseIntBar]
  rw [parseIntFrom_intToChars i ('|' :: rest) (fun c hc => by
    have hc2 : '|' = c := by simpa using hc
    subst hc2
    decide)]
  rfl

theorem parseRegLine_serialize (r : NMFileInfo) (h : wfRec r) :
    parseRegLine (serializeRegLine r) = some r := by
  obtain ⟨hf, ho, hs, hl⟩ := h
  simp only [parseRegLine, serializeRegLine,
    parseStrBar_append r.filename.data hf.1 (fun c hc => (hf.2 c hc).1),
    parseStrBar_append r.owner.data ho.1 (fun c hc => (ho.2 c hc).1),
    parseStrBar_append r.ss_id.data hs.1 (fun c hc => (hs.2 c hc).1),
    parseStrBar_append r.last_accessed_by.data hl.1
      (fun c hc => (hl.2 c hc).1),
    parseIntBar_append r.created, parseIntBar_append r.modified,
    parseIntBar_append r.accessed, parseIntBar_append r.word_count,
    parseIntFrom_intToChars_nil r.char_count,
    Option.some_bind, Option.map_some']
  rfl

theorem load_registry_fold (f : String) (r : NMFileInfo) :
    ∀ (lines : List (List Char)) (acc : List (String × NMFileInfo)),
      (∀ line ∈ lines, ∀ v, parseRegLine line = some v → v.filename = f →
        v = r) →
      (∀ v, assocGet acc f = some v → v = r) →
      (assocGet acc f = some r ∨
        ∃ line ∈ lines, parseRegLine line = some r ∧ r.filename = f) →
      assocGet (lines.foldl (fun reg line =>
        match parseRegLine line with
        | some info => assocPut reg info.filename info
        | none => reg) acc) f = some r := by
  intro lines
  induction lines with
  | nil =>
    intro acc _ _ hpres
    rcases hpres with h | ⟨line, hmem, _⟩
    · simpa using h
    · exact absurd hmem (List.not_mem_nil line)
  | cons line rest ih =>
    intro acc huniq hacc hpres
    cases hp : parseRegLine line with
    | none =>
      simp only [List.foldl_cons, hp]
      apply ih acc
      · intro l hl v hpl hfl
        exact huniq l (List.mem_cons_of_mem line hl) v hpl hfl
      · exact hacc
      · rcases hpres with h | ⟨l, hl, hparse, hfn⟩
        · exact Or.inl h
        · rcases List.mem_cons.mp hl with rfl | hl'
          · rw [hp] at hparse
            exact absurd hparse (by simp)
          · exact Or.inr ⟨l, hl', hparse, hfn⟩
    | some v =>
      simp only [List.foldl_cons, hp]
      by_cases hvf : v.filename = f
      · have hvr : v = r :=
          huniq line (List.mem_cons_self line rest) v hp hvf
        subst hvr
        apply ih
        · intro l hl v' hpl hfl
          exact huniq l (List.mem_cons_of_mem line hl) v' hpl hfl
        · intro v' hv'
          rw [hvf, assocGet_put_self] at hv'
          exact (Option.some.inj hv').symm
        · left
          rw [hvf, assocGet_put_self]
      · apply ih
        · intro l hl v' hpl hfl
          exact huniq l (List.mem_cons_of_mem line hl) v' hpl hfl
        · intro v' hv'
          rw [assocGet_put_ne acc v.filename f v hvf] at hv'
          exact hacc v' hv'
        · rcases hpres with h | ⟨l, hl, hparse, hfn⟩
          · left
            rw [assocGet_put_ne acc v.filename f v hvf]
            exact h
          · rcases List.mem_cons.mp hl with rfl | hl'
            · rw [hp] at hparse
              have hvr2 : v = r := Option.some.inj hparse
              exfalso
              apply hvf
              rw [hvr2]
              exact hfn
            · exact Or.inr ⟨l, hl', hparse, hfn⟩

/-- C8.  Saving the coordinator's file registry and replaying the flat
file restores every registered record: for a registry whose records are
well-formed (string fields non-empty and free of the separator and of
newlines, each record keyed by its filename — which is how the
coordinator always stores them), every lookup is preserved across
`load_file_registry ∘ save_file_registry`, and the filename reappears in
the reloaded hashmap's key enumeration, which is exactly what VIEW
lists. -/
theorem c8_registry_roundtrip (reg : List (String × NMFileInfo))
    (f : String) (r : NMFileInfo)
    (hwf : ∀ p ∈ reg, wfRec p.2 ∧ p.2.filename = p.1)
    (hget : assocGet reg f = some r) :
    assocGet (load_file_registry (save_file_registry reg)) f = some r ∧
      f ∈ hmKeys (load_file_registry (save_file_registry reg)) := by
  have hrmem : (f, r) ∈ reg := assocGet_mem reg f r hget
  have hrwf := hwf (f, r) hrmem
  have hrfn : r.filename = f := hrwf.2
  have huniq : ∀ line ∈ save_file_registry reg, ∀ v,
      parseRegLine line = some v → v.filename = f → v = r := by
    intro line hline v hpv hvf
    simp only [save_file_registry, List.mem_filterMap] at hline
    obtain ⟨k, hk, hkline⟩ := hline
    cases hak : assocGet reg k with
    | none =>
      rw [hak] at hkline
      exact absurd hkline (by simp)
    | some v0 =>
      rw [hak] at hkline
      have hkl : serializeRegLine v0 = line := by
        simpa using hkline
      have hv0mem := assocGet_mem reg k v0 hak
      have hv0wf := hwf (k, v0) hv0mem
      have hv0rt : parseRegLine (serializeRegLine v0) = some v0 :=
        parseRegLine_serialize v0 hv0wf.1
      rw [← hkl, hv0rt] at hpv
      have hvv0 : v = v0 := (Option.some.inj hpv).symm
      subst hvv0
      have hv0fn : v.filename = k := hv0wf.2
      have hkf : k = f := by
        rw [← hv0fn]
        exact hvf
      subst hkf
      rw [hget] at hak
      exact (Option.some.inj hak).symm
  have hpres : ∃ line ∈ save_file_registry reg,
      parseRegLine line = some r ∧ r.filename = f := by
    refine ⟨serializeRegLine r, ?_, parseRegLine_serialize r hrwf.1, hrfn⟩
    simp only [save_file_registry, List.mem_filterMap]
    refine ⟨f, (mem_hmKeys reg f).mpr ?_, ?_⟩
    · simp only [List.mem_map]
      exact ⟨(f, r), hrmem, rfl⟩
    · rw [hget]
      rfl
  have hmain :
      assocGet (load_file_registry (save_file_registry reg)) f = some r := by
    simp only [load_file_registry]
    exact load_registry_fold f r (save_file_registry reg) []
      huniq (fun v hv => by simp [assocGet] at hv) (Or.inr hpres)
  refine ⟨hmain, ?_⟩
  rw [mem_hmKeys]
  simp only [List.mem_map]
  exact ⟨(f, r), assocGet_mem _ f r hmain, rfl⟩

/-- C8 witness: the registry holding exactly `wFileRec` (the record CREATE
registers for `n.txt`) survives the save/load round trip, and `n.txt` is
among the reloaded keys that VIEW enumerates. -/
theorem c8_registry_roundtrip_witness :
    (∀ p ∈ [("n.txt", wFileRec)], wfRec p.2 ∧ p.2.filename = p.1) ∧
    assocGet (load_file_registry (save_file_registry [("n.txt", wFileRec)]))
        "n.txt" = some wFileRec ∧
    "n.txt" ∈ hmKeys (load_file_registry (save_file_registry
        [("n.txt", wFileRec)])) := by
  have h := c8_registry_roundtrip [("n.txt", wFileRec)] "n.txt" wFileRec
    (by decide) (by decide)
  exact ⟨by decide, h.1, h.2⟩

end Osn
